import Mathlib

/-!
Verification of the FCM multicast notification fan-out engine
(`backend-services` `services` package, `fcm_service.go`, the per-token-retry
variant).  The Go source is shallowly embedded: the gateway client
(`messaging.Client.SendEachForMulticast`) is an oracle mapping the call index
and the outbound batch to either a whole-batch error or a positional list of
per-token results; `context` cancellation during a backoff wait is an oracle
from the attempt number to `Bool`.  Durations are nanosecond counts (`Nat`),
matching Go's `time.Duration` values in the reachable range.  The engine's
state (`retryState`) and all operations on it are translated directly.

Ghost instrumentation (fields marked "ghost" below) records the observable
history of a run — each gateway call's batch together with the
`finalFailedTokens` snapshot at that call, the completed backoff waits, the
per-pass success counts, and the state at a cancellation — so that the
specification's trace properties (finality, dedup-per-batch, ceiling,
backoff monotonicity, cancellation accounting) can be stated.  The ghost
fields never influence the `success`/`failure`/`err` results.
-/

namespace FCM

/-- maxTokensPerBatch: FCM limit of 500 tokens per multicast request. -/
def maxTokensPerBatch : Nat := 500

/-- maxRetries: maximum number of send attempts (passes). -/
def maxRetries : Nat := 3

/-- initialRetryDelay = 1 * time.Second, in nanoseconds. -/
def initialRetryDelay : Nat := 1000000000

/-- maxRetryDelay = 30 * time.Second, in nanoseconds. -/
def maxRetryDelay : Nat := 30000000000

/-- FCMAbsoluteLimit: absolute maximum number of tokens to process. -/
def FCMAbsoluteLimit : Nat := 50000

/-- batchRetryablePatterns: substrings of a request-level error for which
retrying the entire batch is sensible. -/
def batchRetryablePatterns : List String :=
  ["deadline exceeded", "timeout", "connection refused", "connection reset",
   "temporary failure", "server unavailable", "internal error",
   "503", "500", "502", "504", "UNAVAILABLE", "INTERNAL", "RESOURCE_EXHAUSTED"]

/-- tokenNonRetryableErrors: permanent per-token error indicators. -/
def tokenNonRetryableErrors : List String :=
  ["invalid-registration-token", "registration-token-not-registered",
   "invalid-package-name", "invalid-argument", "sender-id-mismatch",
   "mismatched-credential", "invalid-apns-credentials"]

/-- tokenRetryableErrors: transient per-token error indicators. -/
def tokenRetryableErrors : List String :=
  ["internal-error", "unavailable", "timeout", "server-unavailable",
   "quota-exceeded", "service-unavailable", "too-many-requests",
   "message-rate-exceeded"]

/-- Helper for substring search: `startsWithChars pat s` is true when `pat`
is an initial segment of `s` (character lists). -/
def startsWithChars : List Char → List Char → Bool
  | [], _ => true
  | _ :: _, [] => false
  | c :: cs, d :: ds => c == d && startsWithChars cs ds

/-- Helper for substring search: `charsContain pat s` is true when `pat`
occurs contiguously somewhere inside `s` (Go `strings.Contains`). -/
def charsContain (pat : List Char) : List Char → Bool
  | [] => startsWithChars pat []
  | d :: ds => startsWithChars pat (d :: ds) || charsContain pat ds

/-- containsInsensitive: case-insensitive substring check,
`strings.Contains(strings.ToLower(s), strings.ToLower(substr))`.  Lowering
is modelled per character; on the ASCII pattern tables of this file this
agrees with Go's Unicode lowering for every message, because a non-ASCII
character never lowers to an ASCII one. -/
def containsInsensitive (s substr : String) : Bool :=
  charsContain (substr.data.map Char.toLower) (s.data.map Char.toLower)

/-- An FCM gateway error is carried as its textual message; `none` is Go's
nil error. -/
def isRetryableBatchError : Option String → Bool
  | none => false
  | some msg => batchRetryablePatterns.any fun pat => containsInsensitive msg pat

/-- isRetryablePerTokenError: the non-retryable table is consulted first,
then the retryable table; unknown errors are not retried. -/
def isRetryablePerTokenError : Option String → Bool
  | none => false
  | some msg =>
    if tokenNonRetryableErrors.any (fun pat => msg == pat || containsInsensitive msg pat) then
      false
    else if tokenRetryableErrors.any (fun pat => msg == pat || containsInsensitive msg pat) then
      true
    else
      false

/-- uniqueTokens helper: `seen` is the set of tokens already emitted
(Go's `seen` map). -/
def uniqueTokensAux (seen : List String) : List String → List String
  | [] => []
  | t :: ts =>
    if t = "" then uniqueTokensAux seen ts
    else if t ∈ seen then uniqueTokensAux seen ts
    else t :: uniqueTokensAux (t :: seen) ts

/-- uniqueTokens removes empty strings and duplicate tokens while preserving
first-occurrence order. -/
def uniqueTokens (tokens : List String) : List String :=
  uniqueTokensAux [] tokens

/-- retryState: success counter and the permanently-failed token set.  Go
stores `finalFailedTokens` as `map[string]struct{}`; it is modelled as a
duplicate-free list, whose length is the map's size. -/
structure RetryState where
  totalSuccess : Nat
  finalFailedTokens : List String
deriving Repr, DecidableEq

/-- newRetryState. -/
def newRetryState : RetryState := { totalSuccess := 0, finalFailedTokens := [] }

/-- addSuccessCount. -/
def RetryState.addSuccessCount (rs : RetryState) (count : Nat) : RetryState :=
  { rs with totalSuccess := rs.totalSuccess + count }

/-- failedCount = len(finalFailedTokens). -/
def RetryState.failedCount (rs : RetryState) : Nat :=
  rs.finalFailedTokens.length

/-- markAsFailed: set insertion (idempotent, like a Go map write). -/
def RetryState.markAsFailed (rs : RetryState) (token : String) : RetryState :=
  if token ∈ rs.finalFailedTokens then rs
  else { rs with finalFailedTokens := rs.finalFailedTokens ++ [token] }

/-- isAlreadyFailed. -/
def RetryState.isAlreadyFailed (rs : RetryState) (token : String) : Bool :=
  rs.finalFailedTokens.contains token

/-- markRemainingAsFailed: mark every token of the list as failed. -/
def RetryState.markRemainingAsFailed (rs : RetryState) (tokens : List String) : RetryState :=
  tokens.foldl RetryState.markAsFailed rs

/-- One per-token result of a gateway batch call (`messaging.SendResponse`):
a success flag and, on failure, the error's message. -/
structure TokenResult where
  success : Bool
  errMsg : Option String
deriving Repr, DecidableEq

/-- A gateway reply: either the whole batch failed with one error, or a
positional per-token result list (the SDK aligns it with the input batch). -/
inductive GatewayResp where
  | batchError (msg : String)
  | ok (results : List TokenResult)
deriving Repr, DecidableEq

/-- The gateway oracle: the response to the n-th gateway call of the run
(0-indexed), given the outbound batch. -/
def Gateway := Nat → List String → GatewayResp

/-- A gateway honouring the SDK contract: per-token results are positionally
aligned with the batch, so the lists have equal length. -/
def WFGateway (g : Gateway) : Prop :=
  ∀ k batch results, g k batch = GatewayResp.ok results → results.length = batch.length

/-- SuccessCount of a `messaging.BatchResponse`: the number of per-token
results that succeeded. -/
def countSuccesses (results : List TokenResult) : Nat :=
  results.countP fun r => r.success

/-- batchResult. -/
structure BatchResult where
  successCount : Nat
  retryableTokens : List String
deriving Repr, DecidableEq

/-- attemptResult. -/
structure AttemptResult where
  successCount : Nat
  retryableTokens : List String
deriving Repr, DecidableEq

/-- filterRetryableTokens: the tokens not already marked as failed. -/
def filterRetryableTokens (tokens : List String) (rs : RetryState) : List String :=
  tokens.filter fun token => !(rs.isAlreadyFailed token)

/-- handleBatchError: a retryable batch error re-queues the not-yet-failed
tokens; a terminal one marks every batch token failed. -/
def handleBatchError (msg : String) (batch : List String) (rs : RetryState) :
    BatchResult × RetryState :=
  if isRetryableBatchError (some msg) then
    ({ successCount := 0, retryableTokens := filterRetryableTokens batch rs }, rs)
  else
    ({ successCount := 0, retryableTokens := [] }, rs.markRemainingAsFailed batch)

/-- shouldRetryToken: a token already finalized is never retried; otherwise
the per-token classifier decides. -/
def shouldRetryToken (err : Option String) (token : String) (rs : RetryState) : Bool :=
  if rs.isAlreadyFailed token then false
  else isRetryablePerTokenError err

/-- processTokenResponses walks the per-token results positionally against
the batch: failures are either queued for retry or marked failed.  (The SDK
guarantees both lists have the same length; Go indexes `batch[idx]`.) -/
def processTokenResponses : List String → List TokenResult → RetryState →
    List String × RetryState
  | _, [], rs => ([], rs)
  | [], _ :: _, rs => ([], rs)
  | token :: batchRest, r :: resultsRest, rs =>
    if r.success then
      processTokenResponses batchRest resultsRest rs
    else if shouldRetryToken r.errMsg token rs then
      let (rest, rs1) := processTokenResponses batchRest resultsRest rs
      (token :: rest, rs1)
    else
      processTokenResponses batchRest resultsRest (rs.markAsFailed token)

/-- sendBatch: one gateway call for one batch (call index `k`). -/
def sendBatch (g : Gateway) (k : Nat) (batch : List String) (rs : RetryState) :
    BatchResult × RetryState :=
  match g k batch with
  | GatewayResp.batchError msg => handleBatchError msg batch rs
  | GatewayResp.ok results =>
    let pr := processTokenResponses batch results rs
    ({ successCount := countSuccesses results, retryableTokens := pr.1 }, pr.2)

/-- getBatch: the slice `tokens[startIndex : startIndex+maxTokensPerBatch]`. -/
def getBatch (tokens : List String) (startIndex : Nat) : List String :=
  (tokens.drop startIndex).take maxTokensPerBatch

/-- The contiguous batch decomposition produced by the `sendBatches` index
loop (`i = 0, 500, 1000, …`), fuelled so that it is structurally recursive;
`tokens.length` fuel always suffices. -/
def chunksOfFuel : Nat → List String → List (List String)
  | 0, _ => []
  | fuel + 1, tokens =>
    if tokens = [] then []
    else tokens.take maxTokensPerBatch :: chunksOfFuel fuel (tokens.drop maxTokensPerBatch)

/-- The list of batches of one pass: contiguous slices of ≤ 500 tokens. -/
def chunksOf (tokens : List String) : List (List String) :=
  chunksOfFuel tokens.length tokens

/-- The ghost record of one gateway call: the outbound batch and the
`finalFailedTokens` snapshot at the moment of the call. -/
abbrev CallTrace := List (List String × List String)

/-- The result of processing the batches of one attempt: the attempt's
aggregate result, the threaded retry state, the next gateway call index,
and the ghost call trace. -/
structure BatchesOut where
  result : AttemptResult
  rs : RetryState
  nextCall : Nat
  calls : CallTrace
deriving Repr, DecidableEq

/-- sendBatches over an explicit batch list, threading the retry state and
the gateway call index in program order. -/
def sendBatchesList (g : Gateway) (k : Nat) (batches : List (List String))
    (rs : RetryState) : BatchesOut :=
  match batches with
  | [] => ⟨{ successCount := 0, retryableTokens := [] }, rs, k, []⟩
  | b :: rest =>
    let br := sendBatch g k b rs
    let out := sendBatchesList g (k + 1) rest br.2
    ⟨{ successCount := br.1.successCount + out.result.successCount,
       retryableTokens := br.1.retryableTokens ++ out.result.retryableTokens },
     out.rs, out.nextCall, (b, rs.finalFailedTokens) :: out.calls⟩

/-- sendBatches: all batches of one attempt, sequentially. -/
def sendBatches (g : Gateway) (k : Nat) (tokens : List String) (rs : RetryState) :
    BatchesOut :=
  sendBatchesList g k (chunksOf tokens) rs

/-- The only call-level error the engine ever returns: `ctx.Err()` when the
cancellation signal fires during a backoff wait. -/
inductive FCMError where
  | contextCanceled
deriving Repr, DecidableEq

/-- backoffDelay: `initialRetryDelay * 2^(attempt-1)`, capped at
`maxRetryDelay` (nanoseconds). -/
def backoffDelay (attempt : Nat) : Nat :=
  let delay := initialRetryDelay * 2 ^ (attempt - 1)
  if delay > maxRetryDelay then maxRetryDelay else delay

/-- waitForRetry: sleeps `backoffDelay attempt` unless the cancellation
signal fires during the wait, in which case `ctx.Err()` is returned. -/
def waitForRetry (cancel : Nat → Bool) (attempt : Nat) : Option FCMError :=
  if cancel attempt then some FCMError.contextCanceled else none

/-- The observable outcome of one `SendMulticastNotification` call: the
returned `(success, failure, err)` triple plus ghost history. -/
structure SendOutcome where
  success : Nat
  failure : Nat
  err : Option FCMError
  /-- ghost: `finalFailedTokens` at return. -/
  finalFailed : List String
  /-- ghost: one entry per gateway call, in order. -/
  trace : List (List String × List String)
  /-- ghost: the completed backoff waits, in order (nanoseconds). -/
  waits : List Nat
  /-- ghost: the success count of each pass whose sending completed. -/
  passes : List Nat
  /-- ghost: at a cancellation, the failed set and the pending retry set. -/
  cancelInfo : Option (List String × List String)
deriving Repr, DecidableEq

/-- The code after the retry loop: tokens still pending after the loop are
marked failed (only reached with a non-empty list when retries were
exhausted; the loop clears the list on early success). -/
def finishSend (currentTokens : List String) (rs : RetryState) : SendOutcome :=
  let rs1 := if currentTokens = [] then rs else rs.markRemainingAsFailed currentTokens
  { success := rs1.totalSuccess, failure := rs1.failedCount, err := none,
    finalFailed := rs1.finalFailedTokens,
    trace := [], waits := [], passes := [], cancelInfo := none }

/-- The retry loop of `sendWithRetry`: `fuel` counts the remaining loop
iterations (`maxRetries - attempt + 1` at every reachable call), `attempt`
is the 1-indexed pass number, `k` the gateway call index. -/
def sendLoop (g : Gateway) (cancel : Nat → Bool) :
    Nat → Nat → List String → RetryState → Nat → SendOutcome
  | 0, _, currentTokens, rs, _ => finishSend currentTokens rs
  | fuel + 1, attempt, currentTokens, rs, k =>
    if currentTokens = [] then finishSend currentTokens rs
    else
      let out := sendBatches g k currentTokens rs
      let rs2 := out.rs.addSuccessCount out.result.successCount
      if out.result.retryableTokens = [] then
        -- nothing to retry: clear the working set and stop
        let base := finishSend [] rs2
        { base with trace := out.calls, passes := [out.result.successCount] }
      else
        let next := uniqueTokens out.result.retryableTokens
        if attempt < maxRetries then
          match waitForRetry cancel attempt with
          | some e =>
            { success := rs2.totalSuccess,
              failure := rs2.failedCount + next.length,
              err := some e,
              finalFailed := rs2.finalFailedTokens,
              trace := out.calls, waits := [], passes := [out.result.successCount],
              cancelInfo := some (rs2.finalFailedTokens, next) }
          | none =>
            let rest := sendLoop g cancel fuel (attempt + 1) next rs2 out.nextCall
            { rest with trace := out.calls ++ rest.trace,
                        waits := backoffDelay attempt :: rest.waits,
                        passes := out.result.successCount :: rest.passes }
        else
          let rest := sendLoop g cancel fuel (attempt + 1) next rs2 out.nextCall
          { rest with trace := out.calls ++ rest.trace,
                      passes := out.result.successCount :: rest.passes }

/-- sendWithRetry: run the retry loop from attempt 1 with a fresh state. -/
def sendWithRetry (g : Gateway) (cancel : Nat → Bool) (allTokens : List String) :
    SendOutcome :=
  sendLoop g cancel maxRetries 1 allTokens newRetryState 0

/-- The deduplicated, ceiling-capped working list that the retry coordinator
receives. -/
def cappedTokens (tokens : List String) : List String :=
  let unique := uniqueTokens tokens
  if FCMAbsoluteLimit < unique.length then unique.take FCMAbsoluteLimit else unique

/-- SendMulticastNotification: empty input short-circuits; otherwise the
input is deduplicated, capped at `FCMAbsoluteLimit`, and handed to
`sendWithRetry`. -/
def SendMulticastNotification (g : Gateway) (cancel : Nat → Bool)
    (tokens : List String) : SendOutcome :=
  if tokens = [] then
    { success := 0, failure := 0, err := none, finalFailed := [],
      trace := [], waits := [], passes := [], cancelInfo := none }
  else
    sendWithRetry g cancel (cappedTokens tokens)

/-- A gateway that reports success for every token of every batch. -/
def allSuccessGateway : Gateway :=
  fun _ batch => GatewayResp.ok (batch.map fun _ => { success := true, errMsg := none })

/-- A gateway that fails every batch with the same 503 error. -/
def always503Gateway : Gateway :=
  fun _ _ => GatewayResp.batchError "503 Service Unavailable"

/-- A context that never fires. -/
def noCancel : Nat → Bool := fun _ => false

/-- A context that fires during every backoff wait. -/
def alwaysCancel : Nat → Bool := fun _ => true

/-- A non-empty token consisting of `n + 1` copies of the letter a; distinct
lengths give distinct tokens. -/
def aToken (n : Nat) : String :=
  String.mk (List.replicate (n + 1) 'a')

/-- `n` pairwise-distinct non-empty tokens. -/
def manyTokens (n : Nat) : List String :=
  (List.range n).map aToken

/-- `msg` matches some entry of the pattern table by case-insensitive
substring matching. -/
def matchesAny (msg : String) (pats : List String) : Prop :=
  ∃ pat ∈ pats, containsInsensitive msg pat = true

instance (msg : String) (pats : List String) : Decidable (matchesAny msg pats) :=
  inferInstanceAs (Decidable (∃ pat ∈ pats, containsInsensitive msg pat = true))

end FCM

/-! ## Lemmas: case-insensitive substring matching and the classifiers -/

namespace FCM

theorem startsWithChars_self (l : List Char) : startsWithChars l l = true := by
  induction l with
  | nil => rfl
  | cons c cs ih => simp [startsWithChars, ih]

theorem charsContain_self (l : List Char) : charsContain l l = true := by
  cases l with
  | nil => rfl
  | cons c cs => simp [charsContain, startsWithChars_self]

theorem containsInsensitive_self (s : String) : containsInsensitive s s = true :=
  charsContain_self _

/-- The redundant `errMsg == pattern` disjunct of the per-token classifier is
subsumed by the case-insensitive substring check. -/
theorem containsInsensitive_of_beq {msg pat : String} (h : (msg == pat) = true) :
    containsInsensitive msg pat = true := by
  rcases beq_iff_eq.mp h with rfl
  exact containsInsensitive_self msg

/-- The per-token classifier's table scan succeeds exactly when some table
entry matches by case-insensitive substring. -/
theorem any_beq_or_contains_iff (msg : String) (pats : List String) :
    (pats.any fun pat => msg == pat || containsInsensitive msg pat) = true ↔
      matchesAny msg pats := by
  rw [List.any_eq_true]
  constructor
  · rintro ⟨pat, hmem, h⟩
    simp only [Bool.or_eq_true] at h
    rcases h with h | h
    · exact ⟨pat, hmem, containsInsensitive_of_beq h⟩
    · exact ⟨pat, hmem, h⟩
  · rintro ⟨pat, hmem, h⟩
    exact ⟨pat, hmem, by simp only [Bool.or_eq_true]; exact Or.inr h⟩

theorem isRetryableBatchError_iff (msg : String) :
    isRetryableBatchError (some msg) = true ↔ matchesAny msg batchRetryablePatterns := by
  rw [isRetryableBatchError, List.any_eq_true]
  constructor
  · rintro ⟨pat, hmem, h⟩; exact ⟨pat, hmem, h⟩
  · rintro ⟨pat, hmem, h⟩; exact ⟨pat, hmem, h⟩

/-! ## Lemmas: uniqueTokens -/

theorem uniqueTokensAux_cons_empty {a : String} (seen as : List String) (ha : a = "") :
    uniqueTokensAux seen (a :: as) = uniqueTokensAux seen as := by
  simp [uniqueTokensAux, ha]

theorem uniqueTokensAux_cons_seen {a : String} (seen as : List String)
    (ha : a ≠ "") (hs : a ∈ seen) :
    uniqueTokensAux seen (a :: as) = uniqueTokensAux seen as := by
  simp [uniqueTokensAux, ha, hs]

theorem uniqueTokensAux_cons_fresh {a : String} (seen as : List String)
    (ha : a ≠ "") (hs : a ∉ seen) :
    uniqueTokensAux seen (a :: as) = a :: uniqueTokensAux (a :: seen) as := by
  simp [uniqueTokensAux, ha, hs]

theorem mem_uniqueTokensAux {t : String} (seen l : List String) :
    t ∈ uniqueTokensAux seen l ↔ t ∈ l ∧ t ≠ "" ∧ t ∉ seen := by
  induction l generalizing seen with
  | nil => simp [uniqueTokensAux]
  | cons a as ih =>
    by_cases ha : a = ""
    · rw [uniqueTokensAux_cons_empty seen as ha, ih]
      constructor
      · rintro ⟨h1, h2, h3⟩; exact ⟨List.mem_cons_of_mem a h1, h2, h3⟩
      · rintro ⟨h1, h2, h3⟩
        rcases List.mem_cons.mp h1 with rfl | h1
        · exact absurd ha h2
        · exact ⟨h1, h2, h3⟩
    · by_cases hs : a ∈ seen
      · rw [uniqueTokensAux_cons_seen seen as ha hs, ih]
        constructor
        · rintro ⟨h1, h2, h3⟩; exact ⟨List.mem_cons_of_mem a h1, h2, h3⟩
        · rintro ⟨h1, h2, h3⟩
          rcases List.mem_cons.mp h1 with rfl | h1
          · exact absurd hs h3
          · exact ⟨h1, h2, h3⟩
      · rw [uniqueTokensAux_cons_fresh seen as ha hs]
        constructor
        · intro h
          rcases List.mem_cons.mp h with rfl | h
          · exact ⟨List.mem_cons_self t as, ha, hs⟩
          · obtain ⟨h1, h2, h3⟩ := (ih (a :: seen)).mp h
            exact ⟨List.mem_cons_of_mem a h1, h2, fun hc => h3 (List.mem_cons_of_mem a hc)⟩
        · rintro ⟨h1, h2, h3⟩
          rcases List.mem_cons.mp h1 with rfl | h1
          · exact List.mem_cons_self t _
          · by_cases hta : t = a
            · rw [hta]; exact List.mem_cons_self a _
            · refine List.mem_cons_of_mem a ((ih (a :: seen)).mpr ⟨h1, h2, fun hc => ?_⟩)
              rcases List.mem_cons.mp hc with h | h
              · exact hta h
              · exact h3 h

theorem mem_uniqueTokens {t : String} (l : List String) :
    t ∈ uniqueTokens l ↔ t ∈ l ∧ t ≠ "" := by
  rw [uniqueTokens, mem_uniqueTokensAux]
  simp

theorem nodup_uniqueTokensAux (seen l : List String) :
    (uniqueTokensAux seen l).Nodup := by
  induction l generalizing seen with
  | nil => simp [uniqueTokensAux]
  | cons a as ih =>
    by_cases ha : a = ""
    · rw [uniqueTokensAux_cons_empty seen as ha]; exact ih seen
    · by_cases hs : a ∈ seen
      · rw [uniqueTokensAux_cons_seen seen as ha hs]; exact ih seen
      · rw [uniqueTokensAux_cons_fresh seen as ha hs]
        refine List.nodup_cons.mpr ⟨fun hc => ?_, ih (a :: seen)⟩
        exact ((mem_uniqueTokensAux (a :: seen) as).mp hc).2.2 (List.mem_cons_self a seen)

theorem nodup_uniqueTokens (l : List String) : (uniqueTokens l).Nodup :=
  nodup_uniqueTokensAux [] l

theorem empty_not_mem_uniqueTokens (l : List String) : "" ∉ uniqueTokens l := by
  intro h
  exact ((mem_uniqueTokens l).mp h).2 rfl

theorem uniqueTokensAux_sublist (seen l : List String) :
    List.Sublist (uniqueTokensAux seen l) l := by
  induction l generalizing seen with
  | nil => simp [uniqueTokensAux]
  | cons a as ih =>
    by_cases ha : a = ""
    · rw [uniqueTokensAux_cons_empty seen as ha]; exact (ih seen).cons a
    · by_cases hs : a ∈ seen
      · rw [uniqueTokensAux_cons_seen seen as ha hs]; exact (ih seen).cons a
      · rw [uniqueTokensAux_cons_fresh seen as ha hs]; exact (ih (a :: seen)).cons₂ a

theorem uniqueTokens_sublist (l : List String) : List.Sublist (uniqueTokens l) l :=
  uniqueTokensAux_sublist [] l

theorem length_uniqueTokens_le (l : List String) :
    (uniqueTokens l).length ≤ l.length :=
  (uniqueTokens_sublist l).length_le

theorem uniqueTokensAux_pairwise_indexOf (seen l : List String) :
    List.Pairwise (fun a b => l.indexOf a < l.indexOf b) (uniqueTokensAux seen l) := by
  induction l generalizing seen with
  | nil => simp [uniqueTokensAux]
  | cons a as ih =>
    have step : ∀ seen', (∀ x ∈ uniqueTokensAux seen' as, a ≠ x) →
        List.Pairwise (fun x y => (a :: as).indexOf x < (a :: as).indexOf y)
          (uniqueTokensAux seen' as) := by
      intro seen' hne
      refine (ih seen').imp_of_mem ?_
      intro x y hx hy hxy
      rw [List.indexOf_cons_ne as (hne x hx), List.indexOf_cons_ne as (hne y hy)]
      omega
    by_cases ha : a = ""
    · rw [uniqueTokensAux_cons_empty seen as ha]
      refine step seen fun x hx h => ?_
      exact ((mem_uniqueTokensAux seen as).mp hx).2.1 (h ▸ ha)
    · by_cases hs : a ∈ seen
      · rw [uniqueTokensAux_cons_seen seen as ha hs]
        refine step seen fun x hx h => ?_
        exact ((mem_uniqueTokensAux seen as).mp hx).2.2 (h ▸ hs)
      · rw [uniqueTokensAux_cons_fresh seen as ha hs]
        have hfresh : ∀ x ∈ uniqueTokensAux (a :: seen) as, a ≠ x := by
          intro x hx h
          exact ((mem_uniqueTokensAux (a :: seen) as).mp hx).2.2
            (h ▸ List.mem_cons_self a seen)
        refine List.pairwise_cons.mpr ⟨?_, step (a :: seen) hfresh⟩
        intro b hb
        rw [List.indexOf_cons_self, List.indexOf_cons_ne as (hfresh b hb)]
        omega

theorem uniqueTokens_pairwise_indexOf (l : List String) :
    List.Pairwise (fun a b => l.indexOf a < l.indexOf b) (uniqueTokens l) :=
  uniqueTokensAux_pairwise_indexOf [] l

theorem uniqueTokensAux_eq_self {l : List String} (seen : List String)
    (hnd : l.Nodup) (hne : "" ∉ l) (hdisj : ∀ t ∈ l, t ∉ seen) :
    uniqueTokensAux seen l = l := by
  induction l generalizing seen with
  | nil => rfl
  | cons a as ih =>
    have ha : a ≠ "" := fun h => hne (h ▸ List.mem_cons_self a as)
    have hs : a ∉ seen := hdisj a (List.mem_cons_self a as)
    rw [uniqueTokensAux_cons_fresh seen as ha hs]
    rw [ih (a :: seen) (List.nodup_cons.mp hnd).2
      (fun h => hne (List.mem_cons_of_mem a h))
      (fun t ht hc => by
        rcases List.mem_cons.mp hc with h | h
        · exact (List.nodup_cons.mp hnd).1 (h ▸ ht)
        · exact hdisj t (List.mem_cons_of_mem a ht) h)]

theorem uniqueTokens_eq_self {l : List String} (hnd : l.Nodup) (hne : "" ∉ l) :
    uniqueTokens l = l :=
  uniqueTokensAux_eq_self [] hnd hne (by simp)

theorem uniqueTokens_ne_nil {l : List String} {t : String} (ht : t ∈ l) (hne : t ≠ "") :
    uniqueTokens l ≠ [] := fun h => by
  have := (mem_uniqueTokens l).mpr ⟨ht, hne⟩
  rw [h] at this
  exact absurd this (List.not_mem_nil t)

end FCM

/-! ## Lemmas: retry state -/

namespace FCM

theorem RetryState.isAlreadyFailed_iff (rs : RetryState) (t : String) :
    rs.isAlreadyFailed t = true ↔ t ∈ rs.finalFailedTokens :=
  List.elem_iff

theorem RetryState.markAsFailed_totalSuccess (rs : RetryState) (u : String) :
    (rs.markAsFailed u).totalSuccess = rs.totalSuccess := by
  unfold RetryState.markAsFailed
  by_cases h : u ∈ rs.finalFailedTokens <;> simp [h]

theorem RetryState.mem_markAsFailed (rs : RetryState) (u t : String) :
    t ∈ (rs.markAsFailed u).finalFailedTokens ↔ t ∈ rs.finalFailedTokens ∨ t = u := by
  unfold RetryState.markAsFailed
  by_cases h : u ∈ rs.finalFailedTokens
  · rw [if_pos h]
    exact ⟨Or.inl, fun hc => hc.elim id fun ht => ht ▸ h⟩
  · rw [if_neg h]
    simp

theorem RetryState.subset_markAsFailed (rs : RetryState) (u : String) :
    rs.finalFailedTokens ⊆ (rs.markAsFailed u).finalFailedTokens := fun _ ht =>
  (rs.mem_markAsFailed u _).mpr (Or.inl ht)

theorem RetryState.length_markAsFailed_le (rs : RetryState) (u : String) :
    (rs.markAsFailed u).finalFailedTokens.length ≤ rs.finalFailedTokens.length + 1 := by
  unfold RetryState.markAsFailed
  by_cases h : u ∈ rs.finalFailedTokens <;> simp [h]

theorem RetryState.length_le_markAsFailed (rs : RetryState) (u : String) :
    rs.finalFailedTokens.length ≤ (rs.markAsFailed u).finalFailedTokens.length := by
  unfold RetryState.markAsFailed
  by_cases h : u ∈ rs.finalFailedTokens <;> simp [h]

theorem RetryState.markRemainingAsFailed_totalSuccess (rs : RetryState) (l : List String) :
    (rs.markRemainingAsFailed l).totalSuccess = rs.totalSuccess := by
  induction l generalizing rs with
  | nil => rfl
  | cons a as ih =>
    show ((rs.markAsFailed a).markRemainingAsFailed as).totalSuccess = rs.totalSuccess
    rw [ih, RetryState.markAsFailed_totalSuccess]

theorem RetryState.mem_markRemainingAsFailed (rs : RetryState) (l : List String) (t : String) :
    t ∈ (rs.markRemainingAsFailed l).finalFailedTokens ↔
      t ∈ rs.finalFailedTokens ∨ t ∈ l := by
  induction l generalizing rs with
  | nil => simp [RetryState.markRemainingAsFailed]
  | cons a as ih =>
    show t ∈ ((rs.markAsFailed a).markRemainingAsFailed as).finalFailedTokens ↔ _
    rw [ih, RetryState.mem_markAsFailed]
    constructor
    · rintro ((h | rfl) | h)
      · exact Or.inl h
      · exact Or.inr (List.mem_cons_self t as)
      · exact Or.inr (List.mem_cons_of_mem a h)
    · rintro (h | h)
      · exact Or.inl (Or.inl h)
      · rcases List.mem_cons.mp h with rfl | h
        · exact Or.inl (Or.inr rfl)
        · exact Or.inr h

theorem RetryState.subset_markRemainingAsFailed (rs : RetryState) (l : List String) :
    rs.finalFailedTokens ⊆ (rs.markRemainingAsFailed l).finalFailedTokens := fun _ ht =>
  (rs.mem_markRemainingAsFailed l _).mpr (Or.inl ht)

theorem RetryState.length_markRemainingAsFailed_le (rs : RetryState) (l : List String) :
    (rs.markRemainingAsFailed l).finalFailedTokens.length ≤
      rs.finalFailedTokens.length + l.length := by
  induction l generalizing rs with
  | nil => simp [RetryState.markRemainingAsFailed]
  | cons a as ih =>
    show ((rs.markAsFailed a).markRemainingAsFailed as).finalFailedTokens.length ≤ _
    calc ((rs.markAsFailed a).markRemainingAsFailed as).finalFailedTokens.length
        ≤ (rs.markAsFailed a).finalFailedTokens.length + as.length := ih _
      _ ≤ rs.finalFailedTokens.length + 1 + as.length := by
          have := rs.length_markAsFailed_le a; omega
      _ = rs.finalFailedTokens.length + (a :: as).length := by simp; omega

theorem RetryState.length_markRemainingAsFailed_of_disjoint {rs : RetryState}
    {l : List String} (hnd : l.Nodup) (hdisj : ∀ t ∈ l, t ∉ rs.finalFailedTokens) :
    (rs.markRemainingAsFailed l).finalFailedTokens.length =
      rs.finalFailedTokens.length + l.length := by
  induction l generalizing rs with
  | nil => simp [RetryState.markRemainingAsFailed]
  | cons a as ih =>
    show ((rs.markAsFailed a).markRemainingAsFailed as).finalFailedTokens.length = _
    have ha : a ∉ rs.finalFailedTokens := hdisj a (List.mem_cons_self a as)
    have hlen : (rs.markAsFailed a).finalFailedTokens.length =
        rs.finalFailedTokens.length + 1 := by
      unfold RetryState.markAsFailed
      rw [if_neg ha]
      simp
    rw [ih (List.nodup_cons.mp hnd).2 (fun t ht hc => by
      rcases (rs.mem_markAsFailed a t).mp hc with h | rfl
      · exact hdisj t (List.mem_cons_of_mem a ht) h
      · exact (List.nodup_cons.mp hnd).1 ht), hlen]
    simp
    omega

/-! ## Lemmas: processing one batch -/

theorem processTokenResponses_nil_results (b : List String) (rs : RetryState) :
    processTokenResponses b [] rs = ([], rs) := by
  cases b <;> rfl

theorem processTokenResponses_totalSuccess (res : List TokenResult)
    (b : List String) (rs : RetryState) :
    (processTokenResponses b res rs).2.totalSuccess = rs.totalSuccess := by
  induction res generalizing b rs with
  | nil => rw [processTokenResponses_nil_results]
  | cons r rl ih =>
    cases b with
    | nil => rfl
    | cons t bs =>
      rw [processTokenResponses]
      by_cases hsucc : r.success = true
      · rw [if_pos hsucc]; exact ih bs rs
      · rw [if_neg hsucc]
        by_cases hretry : shouldRetryToken r.errMsg t rs = true
        · rw [if_pos hretry]
          simpa using ih bs rs
        · rw [if_neg hretry]
          rw [ih bs _, RetryState.markAsFailed_totalSuccess]

theorem processTokenResponses_failed_mono (res : List TokenResult)
    (b : List String) (rs : RetryState) :
    rs.finalFailedTokens ⊆ (processTokenResponses b res rs).2.finalFailedTokens := by
  induction res generalizing b rs with
  | nil => rw [processTokenResponses_nil_results]; exact fun _ h => h
  | cons r rl ih =>
    cases b with
    | nil => exact fun _ h => h
    | cons t bs =>
      rw [processTokenResponses]
      by_cases hsucc : r.success = true
      · rw [if_pos hsucc]; exact ih bs rs
      · rw [if_neg hsucc]
        by_cases hretry : shouldRetryToken r.errMsg t rs = true
        · rw [if_pos hretry]
          simpa using ih bs rs
        · rw [if_neg hretry]
          exact fun u hu => ih bs _ (rs.subset_markAsFailed t hu)

theorem processTokenResponses_failed_subset (res : List TokenResult)
    (b : List String) (rs : RetryState) :
    ∀ t ∈ (processTokenResponses b res rs).2.finalFailedTokens,
      t ∈ rs.finalFailedTokens ∨ t ∈ b := by
  induction res generalizing b rs with
  | nil =>
    rw [processTokenResponses_nil_results]
    exact fun t ht => Or.inl ht
  | cons r rl ih =>
    cases b with
    | nil => exact fun t ht => Or.inl ht
    | cons t bs =>
      rw [processTokenResponses]
      by_cases hsucc : r.success = true
      · rw [if_pos hsucc]
        intro u hu
        rcases ih bs rs u hu with h | h
        · exact Or.inl h
        · exact Or.inr (List.mem_cons_of_mem t h)
      · rw [if_neg hsucc]
        by_cases hretry : shouldRetryToken r.errMsg t rs = true
        · rw [if_pos hretry]
          intro u hu
          simp only at hu
          rcases ih bs rs u hu with h | h
          · exact Or.inl h
          · exact Or.inr (List.mem_cons_of_mem t h)
        · rw [if_neg hretry]
          intro u hu
          rcases ih bs _ u hu with h | h
          · rcases (rs.mem_markAsFailed t u).mp h with h | rfl
            · exact Or.inl h
            · exact Or.inr (List.mem_cons_self u bs)
          · exact Or.inr (List.mem_cons_of_mem t h)

theorem processTokenResponses_retr_subset (res : List TokenResult)
    (b : List String) (rs : RetryState) :
    ∀ t ∈ (processTokenResponses b res rs).1, t ∈ b := by
  induction res generalizing b rs with
  | nil =>
    rw [processTokenResponses_nil_results]
    exact fun t ht => absurd ht (List.not_mem_nil t)
  | cons r rl ih =>
    cases b with
    | nil => exact fun t ht => absurd ht (List.not_mem_nil t)
    | cons t bs =>
      rw [processTokenResponses]
      by_cases hsucc : r.success = true
      · rw [if_pos hsucc]
        exact fun u hu => List.mem_cons_of_mem t (ih bs rs u hu)
      · rw [if_neg hsucc]
        by_cases hretry : shouldRetryToken r.errMsg t rs = true
        · rw [if_pos hretry]
          intro u hu
          simp only [List.mem_cons] at hu
          rcases hu with rfl | hu
          · exact List.mem_cons_self u bs
          · exact List.mem_cons_of_mem t (ih bs rs u hu)
        · rw [if_neg hretry]
          exact fun u hu => List.mem_cons_of_mem t (ih bs _ u hu)

theorem processTokenResponses_retr_not_failed (res : List TokenResult)
    (b : List String) (rs : RetryState) (hnd : b.Nodup) :
    ∀ t ∈ (processTokenResponses b res rs).1,
      t ∉ (processTokenResponses b res rs).2.finalFailedTokens := by
  induction res generalizing b rs with
  | nil =>
    rw [processTokenResponses_nil_results]
    exact fun t ht => absurd ht (List.not_mem_nil t)
  | cons r rl ih =>
    cases b with
    | nil => exact fun t ht => absurd ht (List.not_mem_nil t)
    | cons t bs =>
      rw [processTokenResponses]
      by_cases hsucc : r.success = true
      · rw [if_pos hsucc]; exact ih bs rs (List.nodup_cons.mp hnd).2
      · rw [if_neg hsucc]
        by_cases hretry : shouldRetryToken r.errMsg t rs = true
        · rw [if_pos hretry]
          intro u hu
          simp only [List.mem_cons] at hu
          rcases hu with rfl | hu
          · -- the freshly queued head token: not failed now, and the rest of
            -- the batch cannot re-mark it because the batch has no duplicates
            intro hc
            rcases processTokenResponses_failed_subset rl bs rs u hc with h | h
            · have : ¬ rs.isAlreadyFailed u = true := by
                intro hb
                rw [shouldRetryToken, if_pos hb] at hretry
                exact Bool.false_ne_true hretry
              exact this ((rs.isAlreadyFailed_iff u).mpr h)
            · exact (List.nodup_cons.mp hnd).1 h
          · exact ih bs rs (List.nodup_cons.mp hnd).2 u hu
        · rw [if_neg hretry]
          exact ih bs _ (List.nodup_cons.mp hnd).2

theorem processTokenResponses_count (res : List TokenResult)
    (b : List String) (rs : RetryState) (hlen : res.length = b.length) :
    countSuccesses res + (processTokenResponses b res rs).2.finalFailedTokens.length +
      (processTokenResponses b res rs).1.length ≤
      b.length + rs.finalFailedTokens.length := by
  induction res generalizing b rs with
  | nil =>
    rw [processTokenResponses_nil_results]
    simp [countSuccesses]
  | cons r rl ih =>
    cases b with
    | nil => simp at hlen
    | cons t bs =>
      have hlen' : rl.length = bs.length := by simpa using hlen
      rw [processTokenResponses]
      by_cases hsucc : r.success = true
      · rw [if_pos hsucc]
        have : countSuccesses (r :: rl) = countSuccesses rl + 1 := by
          simp [countSuccesses, List.countP_cons, hsucc]
        rw [this]
        have := ih bs rs hlen'
        simp only [List.length_cons]
        omega
      · rw [if_neg hsucc]
        have hcount : countSuccesses (r :: rl) = countSuccesses rl := by
          simp [countSuccesses, List.countP_cons, hsucc]
        by_cases hretry : shouldRetryToken r.errMsg t rs = true
        · rw [if_pos hretry]
          have := ih bs rs hlen'
          simp only [hcount, List.length_cons]
          omega
        · rw [if_neg hretry]
          have h1 := ih bs (rs.markAsFailed t) hlen'
          have h2 := rs.length_markAsFailed_le t
          simp only [hcount, List.length_cons]
          omega

end FCM

/-! ## Lemmas: sendBatch -/

namespace FCM

theorem sendBatch_batchError {g : Gateway} {k : Nat} {b : List String} {msg : String}
    (rs : RetryState) (hg : g k b = GatewayResp.batchError msg) :
    sendBatch g k b rs = handleBatchError msg b rs := by
  unfold sendBatch
  rw [hg]

theorem sendBatch_ok {g : Gateway} {k : Nat} {b : List String} {results : List TokenResult}
    (rs : RetryState) (hg : g k b = GatewayResp.ok results) :
    sendBatch g k b rs =
      ({ successCount := countSuccesses results,
         retryableTokens := (processTokenResponses b results rs).1 },
       (processTokenResponses b results rs).2) := by
  unfold sendBatch
  rw [hg]

theorem mem_filterRetryableTokens (b : List String) (rs : RetryState) (t : String) :
    t ∈ filterRetryableTokens b rs ↔ t ∈ b ∧ t ∉ rs.finalFailedTokens := by
  rw [filterRetryableTokens, List.mem_filter]
  constructor
  · rintro ⟨h1, h2⟩
    refine ⟨h1, fun hc => ?_⟩
    rw [Bool.not_eq_true', ← Bool.not_eq_true] at h2
    exact h2 ((rs.isAlreadyFailed_iff t).mpr hc)
  · rintro ⟨h1, h2⟩
    refine ⟨h1, ?_⟩
    rw [Bool.not_eq_true', ← Bool.not_eq_true]
    exact fun hc => h2 ((rs.isAlreadyFailed_iff t).mp hc)

theorem length_filterRetryableTokens_le (b : List String) (rs : RetryState) :
    (filterRetryableTokens b rs).length ≤ b.length :=
  List.length_filter_le _ b

theorem handleBatchError_retryable {msg : String} (b : List String) (rs : RetryState)
    (hr : isRetryableBatchError (some msg) = true) :
    handleBatchError msg b rs =
      ({ successCount := 0, retryableTokens := filterRetryableTokens b rs }, rs) := by
  rw [handleBatchError, if_pos hr]

theorem handleBatchError_terminal {msg : String} (b : List String) (rs : RetryState)
    (hr : ¬ isRetryableBatchError (some msg) = true) :
    handleBatchError msg b rs =
      ({ successCount := 0, retryableTokens := [] }, rs.markRemainingAsFailed b) := by
  rw [handleBatchError, if_neg hr]

theorem sendBatch_totalSuccess (g : Gateway) (k : Nat) (b : List String) (rs : RetryState) :
    (sendBatch g k b rs).2.totalSuccess = rs.totalSuccess := by
  cases hg : g k b with
  | batchError msg =>
    rw [sendBatch_batchError rs hg]
    by_cases hr : isRetryableBatchError (some msg) = true
    · rw [handleBatchError_retryable b rs hr]
    · rw [handleBatchError_terminal b rs hr]
      exact rs.markRemainingAsFailed_totalSuccess b
  | ok results =>
    rw [sendBatch_ok rs hg]
    exact processTokenResponses_totalSuccess results b rs

theorem sendBatch_failed_mono (g : Gateway) (k : Nat) (b : List String) (rs : RetryState) :
    rs.finalFailedTokens ⊆ (sendBatch g k b rs).2.finalFailedTokens := by
  cases hg : g k b with
  | batchError msg =>
    rw [sendBatch_batchError rs hg]
    by_cases hr : isRetryableBatchError (some msg) = true
    · rw [handleBatchError_retryable b rs hr]
      exact fun _ h => h
    · rw [handleBatchError_terminal b rs hr]
      exact rs.subset_markRemainingAsFailed b
  | ok results =>
    rw [sendBatch_ok rs hg]
    exact processTokenResponses_failed_mono results b rs

theorem sendBatch_failed_subset (g : Gateway) (k : Nat) (b : List String) (rs : RetryState) :
    ∀ t ∈ (sendBatch g k b rs).2.finalFailedTokens,
      t ∈ rs.finalFailedTokens ∨ t ∈ b := by
  cases hg : g k b with
  | batchError msg =>
    rw [sendBatch_batchError rs hg]
    by_cases hr : isRetryableBatchError (some msg) = true
    · rw [handleBatchError_retryable b rs hr]
      exact fun t ht => Or.inl ht
    · rw [handleBatchError_terminal b rs hr]
      exact fun t ht => (rs.mem_markRemainingAsFailed b t).mp ht
  | ok results =>
    rw [sendBatch_ok rs hg]
    exact processTokenResponses_failed_subset results b rs

theorem sendBatch_retr_subset (g : Gateway) (k : Nat) (b : List String) (rs : RetryState) :
    ∀ t ∈ (sendBatch g k b rs).1.retryableTokens, t ∈ b := by
  cases hg : g k b with
  | batchError msg =>
    rw [sendBatch_batchError rs hg]
    by_cases hr : isRetryableBatchError (some msg) = true
    · rw [handleBatchError_retryable b rs hr]
      exact fun t ht => ((mem_filterRetryableTokens b rs t).mp ht).1
    · rw [handleBatchError_terminal b rs hr]
      exact fun t ht => absurd ht (List.not_mem_nil t)
  | ok results =>
    rw [sendBatch_ok rs hg]
    exact processTokenResponses_retr_subset results b rs

theorem sendBatch_retr_not_failed (g : Gateway) (k : Nat) (b : List String)
    (rs : RetryState) (hnd : b.Nodup) :
    ∀ t ∈ (sendBatch g k b rs).1.retryableTokens,
      t ∉ (sendBatch g k b rs).2.finalFailedTokens := by
  cases hg : g k b with
  | batchError msg =>
    rw [sendBatch_batchError rs hg]
    by_cases hr : isRetryableBatchError (some msg) = true
    · rw [handleBatchError_retryable b rs hr]
      exact fun t ht => ((mem_filterRetryableTokens b rs t).mp ht).2
    · rw [handleBatchError_terminal b rs hr]
      exact fun t ht => absurd ht (List.not_mem_nil t)
  | ok results =>
    rw [sendBatch_ok rs hg]
    exact processTokenResponses_retr_not_failed results b rs hnd

theorem sendBatch_count (g : Gateway) (k : Nat) (b : List String) (rs : RetryState)
    (hwf : WFGateway g) :
    (sendBatch g k b rs).1.successCount + (sendBatch g k b rs).2.finalFailedTokens.length +
      (sendBatch g k b rs).1.retryableTokens.length ≤
      b.length + rs.finalFailedTokens.length := by
  cases hg : g k b with
  | batchError msg =>
    rw [sendBatch_batchError rs hg]
    by_cases hr : isRetryableBatchError (some msg) = true
    · rw [handleBatchError_retryable b rs hr]
      have := length_filterRetryableTokens_le b rs
      simp only
      omega
    · rw [handleBatchError_terminal b rs hr]
      have := rs.length_markRemainingAsFailed_le b
      simp only [List.length_nil]
      omega
  | ok results =>
    rw [sendBatch_ok rs hg]
    exact processTokenResponses_count results b rs (hwf k b results hg)

/-! ## Lemmas: batch planning -/

theorem chunksOfFuel_nil (fuel : Nat) : chunksOfFuel fuel [] = [] := by
  cases fuel <;> rfl

theorem chunksOfFuel_stable (fuel : Nat) :
    ∀ fuel' (l : List String), l.length ≤ fuel → l.length ≤ fuel' →
      chunksOfFuel fuel l = chunksOfFuel fuel' l := by
  induction fuel with
  | zero =>
    intro fuel' l h _
    have : l = [] := List.length_eq_zero.mp (Nat.le_zero.mp h)
    rw [this, chunksOfFuel_nil, chunksOfFuel_nil]
  | succ fuel ih =>
    intro fuel' l h h'
    by_cases hl : l = []
    · rw [hl, chunksOfFuel_nil, chunksOfFuel_nil]
    · have hpos : 0 < l.length := List.length_pos.mpr hl
      cases fuel' with
      | zero => omega
      | succ fuel' =>
        rw [chunksOfFuel, chunksOfFuel, if_neg hl, if_neg hl]
        have hdrop : (l.drop maxTokensPerBatch).length = l.length - maxTokensPerBatch :=
          List.length_drop _ _
        rw [ih fuel' (l.drop maxTokensPerBatch) (by rw [hdrop]; unfold maxTokensPerBatch; omega)
          (by rw [hdrop]; unfold maxTokensPerBatch; omega)]

theorem chunksOf_cons {l : List String} (hl : l ≠ []) :
    chunksOf l = l.take maxTokensPerBatch :: chunksOf (l.drop maxTokensPerBatch) := by
  have hpos : 0 < l.length := List.length_pos.mpr hl
  obtain ⟨n, hn⟩ : ∃ n, l.length = n + 1 := ⟨l.length - 1, by omega⟩
  rw [chunksOf, hn, chunksOfFuel, if_neg hl, chunksOf]
  have hdrop : (l.drop maxTokensPerBatch).length = l.length - maxTokensPerBatch :=
    List.length_drop _ _
  rw [chunksOfFuel_stable n (l.drop maxTokensPerBatch).length (l.drop maxTokensPerBatch)
    (by rw [hdrop]; unfold maxTokensPerBatch; omega) (le_refl _)]

theorem chunksOf_flatten (l : List String) : (chunksOf l).flatten = l := by
  have main : ∀ fuel (l : List String), l.length ≤ fuel →
      (chunksOfFuel fuel l).flatten = l := by
    intro fuel
    induction fuel with
    | zero =>
      intro l h
      have : l = [] := List.length_eq_zero.mp (Nat.le_zero.mp h)
      rw [this, chunksOfFuel_nil]; rfl
    | succ fuel ih =>
      intro l h
      by_cases hl : l = []
      · rw [hl, chunksOfFuel_nil]; rfl
      · have hpos : 0 < l.length := List.length_pos.mpr hl
        rw [chunksOfFuel, if_neg hl, List.flatten_cons]
        have hdrop : (l.drop maxTokensPerBatch).length = l.length - maxTokensPerBatch :=
          List.length_drop _ _
        rw [ih (l.drop maxTokensPerBatch) (by rw [hdrop]; unfold maxTokensPerBatch; omega)]
        exact List.take_append_drop _ l
  exact main l.length l (le_refl _)

theorem chunksOf_mem (l : List String) :
    ∀ b ∈ chunksOf l, b.length ≤ maxTokensPerBatch ∧ b ≠ [] := by
  have main : ∀ fuel (l : List String), l.length ≤ fuel →
      ∀ b ∈ chunksOfFuel fuel l, b.length ≤ maxTokensPerBatch ∧ b ≠ [] := by
    intro fuel
    induction fuel with
    | zero =>
      intro l h b hb
      have : l = [] := List.length_eq_zero.mp (Nat.le_zero.mp h)
      rw [this, chunksOfFuel_nil] at hb
      exact absurd hb (List.not_mem_nil b)
    | succ fuel ih =>
      intro l h b hb
      by_cases hl : l = []
      · rw [hl, chunksOfFuel_nil] at hb
        exact absurd hb (List.not_mem_nil b)
      · have hpos : 0 < l.length := List.length_pos.mpr hl
        rw [chunksOfFuel, if_neg hl] at hb
        rcases List.mem_cons.mp hb with rfl | hb
        · constructor
          · exact le_trans (le_of_eq (List.length_take maxTokensPerBatch l))
              (Nat.min_le_left _ _)
          · intro hc
            rcases List.take_eq_nil_iff.mp hc with h5 | h5
            · exact absurd h5 (by unfold maxTokensPerBatch; omega)
            · exact hl h5
        · have hdrop : (l.drop maxTokensPerBatch).length = l.length - maxTokensPerBatch :=
            List.length_drop _ _
          exact ih (l.drop maxTokensPerBatch)
            (by rw [hdrop]; unfold maxTokensPerBatch; omega) b hb
  exact main l.length l (le_refl _)

theorem chunksOf_length_le (l : List String) :
    (chunksOf l).flatten.length = l.length := by
  rw [chunksOf_flatten]

end FCM

/-! ## Lemmas: sendBatchesList -/

namespace FCM

theorem sendBatchesList_nil (g : Gateway) (k : Nat) (rs : RetryState) :
    sendBatchesList g k [] rs =
      ⟨{ successCount := 0, retryableTokens := [] }, rs, k, []⟩ := rfl

theorem sendBatchesList_cons (g : Gateway) (k : Nat) (b : List String)
    (rest : List (List String)) (rs : RetryState) :
    sendBatchesList g k (b :: rest) rs =
      ⟨{ successCount := (sendBatch g k b rs).1.successCount +
           (sendBatchesList g (k + 1) rest (sendBatch g k b rs).2).result.successCount,
         retryableTokens := (sendBatch g k b rs).1.retryableTokens ++
           (sendBatchesList g (k + 1) rest (sendBatch g k b rs).2).result.retryableTokens },
       (sendBatchesList g (k + 1) rest (sendBatch g k b rs).2).rs,
       (sendBatchesList g (k + 1) rest (sendBatch g k b rs).2).nextCall,
       (b, rs.finalFailedTokens) ::
         (sendBatchesList g (k + 1) rest (sendBatch g k b rs).2).calls⟩ := rfl

theorem sendBatchesList_rs_totalSuccess (g : Gateway) (batches : List (List String)) :
    ∀ k rs, (sendBatchesList g k batches rs).rs.totalSuccess = rs.totalSuccess := by
  induction batches with
  | nil => intro k rs; rfl
  | cons b rest ih =>
    intro k rs
    rw [sendBatchesList_cons]
    exact (ih (k + 1) (sendBatch g k b rs).2).trans (sendBatch_totalSuccess g k b rs)

theorem sendBatchesList_failed_mono (g : Gateway) (batches : List (List String)) :
    ∀ k rs, rs.finalFailedTokens ⊆ (sendBatchesList g k batches rs).rs.finalFailedTokens := by
  induction batches with
  | nil => intro k rs; exact fun _ h => h
  | cons b rest ih =>
    intro k rs
    rw [sendBatchesList_cons]
    exact fun t ht => ih (k + 1) (sendBatch g k b rs).2 (sendBatch_failed_mono g k b rs ht)

theorem sendBatchesList_failed_subset (g : Gateway) (batches : List (List String)) :
    ∀ k rs, ∀ t ∈ (sendBatchesList g k batches rs).rs.finalFailedTokens,
      t ∈ rs.finalFailedTokens ∨ t ∈ batches.flatten := by
  induction batches with
  | nil => intro k rs t ht; exact Or.inl ht
  | cons b rest ih =>
    intro k rs t ht
    rw [sendBatchesList_cons] at ht
    rcases ih (k + 1) (sendBatch g k b rs).2 t ht with h | h
    · rcases sendBatch_failed_subset g k b rs t h with h | h
      · exact Or.inl h
      · exact Or.inr (by rw [List.flatten_cons]; exact List.mem_append.mpr (Or.inl h))
    · exact Or.inr (by rw [List.flatten_cons]; exact List.mem_append.mpr (Or.inr h))

theorem sendBatchesList_retr_subset (g : Gateway) (batches : List (List String)) :
    ∀ k rs, ∀ t ∈ (sendBatchesList g k batches rs).result.retryableTokens,
      t ∈ batches.flatten := by
  induction batches with
  | nil => intro k rs t ht; exact absurd ht (List.not_mem_nil t)
  | cons b rest ih =>
    intro k rs t ht
    rw [sendBatchesList_cons] at ht
    rw [List.flatten_cons]
    rcases List.mem_append.mp ht with h | h
    · exact List.mem_append.mpr (Or.inl (sendBatch_retr_subset g k b rs t h))
    · exact List.mem_append.mpr (Or.inr (ih (k + 1) (sendBatch g k b rs).2 t h))

theorem sendBatchesList_calls_fst (g : Gateway) (batches : List (List String)) :
    ∀ k rs, (sendBatchesList g k batches rs).calls.map Prod.fst = batches := by
  induction batches with
  | nil => intro k rs; rfl
  | cons b rest ih =>
    intro k rs
    rw [sendBatchesList_cons, List.map_cons, ih (k + 1) (sendBatch g k b rs).2]

theorem sendBatchesList_count (g : Gateway) (batches : List (List String))
    (hwf : WFGateway g) :
    ∀ k rs, (sendBatchesList g k batches rs).result.successCount +
      (sendBatchesList g k batches rs).rs.finalFailedTokens.length +
      (sendBatchesList g k batches rs).result.retryableTokens.length ≤
      batches.flatten.length + rs.finalFailedTokens.length := by
  induction batches with
  | nil =>
    intro k rs
    rw [sendBatchesList_nil]
    simp
  | cons b rest ih =>
    intro k rs
    rw [sendBatchesList_cons]
    have h1 := sendBatch_count g k b rs hwf
    have h2 := ih (k + 1) (sendBatch g k b rs).2
    simp only [List.flatten_cons, List.length_append]
    simp only [List.length_append] at h2 ⊢
    omega

theorem sendBatchesList_calls_snd_subset (g : Gateway) (batches : List (List String)) :
    ∀ k rs, ∀ e ∈ (sendBatchesList g k batches rs).calls,
      ∀ t ∈ e.2, t ∈ (sendBatchesList g k batches rs).rs.finalFailedTokens := by
  induction batches with
  | nil => intro k rs e he; exact absurd he (List.not_mem_nil e)
  | cons b rest ih =>
    intro k rs e he t ht
    rw [sendBatchesList_cons] at he ⊢
    rcases List.mem_cons.mp he with rfl | he
    · exact sendBatchesList_failed_mono g rest (k + 1) (sendBatch g k b rs).2
        (sendBatch_failed_mono g k b rs ht)
    · exact ih (k + 1) (sendBatch g k b rs).2 e he t ht

theorem sendBatchesList_calls_head (g : Gateway) (batches : List (List String))
    (k : Nat) (rs : RetryState) :
    ∀ e ∈ (sendBatchesList g k batches rs).calls.head?, e.2 = rs.finalFailedTokens := by
  cases batches with
  | nil => intro e he; exact absurd he (by rw [sendBatchesList_nil]; intro h; cases h)
  | cons b rest =>
    intro e he
    rw [sendBatchesList_cons] at he
    cases he
    rfl

theorem sendBatchesList_calls_chain (g : Gateway) (batches : List (List String)) :
    ∀ k rs, List.Chain' (fun e e' : List String × List String => e.2 ⊆ e'.2)
      (sendBatchesList g k batches rs).calls := by
  induction batches with
  | nil => intro k rs; rw [sendBatchesList_nil]; exact List.chain'_nil
  | cons b rest ih =>
    intro k rs
    rw [sendBatchesList_cons]
    refine List.chain'_cons'.mpr ⟨?_, ih (k + 1) (sendBatch g k b rs).2⟩
    intro y hy
    rw [sendBatchesList_calls_head g rest (k + 1) (sendBatch g k b rs).2 y hy]
    exact sendBatch_failed_mono g k b rs

theorem sendBatchesList_calls_disjoint (g : Gateway) (batches : List (List String)) :
    ∀ k rs, (∀ t ∈ batches.flatten, t ∉ rs.finalFailedTokens) →
      List.Pairwise List.Disjoint batches →
      ∀ e ∈ (sendBatchesList g k batches rs).calls, ∀ t ∈ e.2, t ∉ e.1 := by
  induction batches with
  | nil => intro k rs _ _ e he; exact absurd he (List.not_mem_nil e)
  | cons b rest ih =>
    intro k rs hdisj hpw e he
    rw [sendBatchesList_cons] at he
    rcases List.mem_cons.mp he with rfl | he
    · intro t ht hc
      exact hdisj t (by rw [List.flatten_cons]; exact List.mem_append.mpr (Or.inl hc)) ht
    · refine ih (k + 1) (sendBatch g k b rs).2 ?_ (List.pairwise_cons.mp hpw).2 e he
      intro t ht hc
      rcases sendBatch_failed_subset g k b rs t hc with h | h
      · exact hdisj t (by rw [List.flatten_cons]; exact List.mem_append.mpr (Or.inr ht)) h
      · rcases List.mem_flatten.mp ht with ⟨l, hl, htl⟩
        exact (List.pairwise_cons.mp hpw).1 l hl h htl

theorem sendBatchesList_retr_not_failed (g : Gateway) (batches : List (List String)) :
    ∀ k rs, (∀ b ∈ batches, b.Nodup) → List.Pairwise List.Disjoint batches →
      ∀ t ∈ (sendBatchesList g k batches rs).result.retryableTokens,
        t ∉ (sendBatchesList g k batches rs).rs.finalFailedTokens := by
  induction batches with
  | nil => intro k rs _ _ t ht; exact absurd ht (List.not_mem_nil t)
  | cons b rest ih =>
    intro k rs hnd hpw t ht
    rw [sendBatchesList_cons] at ht ⊢
    rcases List.mem_append.mp ht with h | h
    · intro hc
      rcases sendBatchesList_failed_subset g rest (k + 1) (sendBatch g k b rs).2 t hc with
        hc' | hc'
      · exact sendBatch_retr_not_failed g k b rs (hnd b (List.mem_cons_self b rest)) t h hc'
      · rcases List.mem_flatten.mp hc' with ⟨l, hl, htl⟩
        exact (List.pairwise_cons.mp hpw).1 l hl (sendBatch_retr_subset g k b rs t h) htl
    · exact ih (k + 1) (sendBatch g k b rs).2
        (fun b' hb' => hnd b' (List.mem_cons_of_mem b hb'))
        (List.pairwise_cons.mp hpw).2 t h

end FCM

/-! ## Lemmas: sendBatches (chunked) and sendLoop unfolding -/

namespace FCM

theorem chunksOf_nodup {l : List String} (h : l.Nodup) :
    (∀ b ∈ chunksOf l, b.Nodup) ∧ List.Pairwise List.Disjoint (chunksOf l) :=
  List.nodup_flatten.mp (by rw [chunksOf_flatten]; exact h)

theorem RetryState.addSuccessCount_finalFailedTokens (rs : RetryState) (n : Nat) :
    (rs.addSuccessCount n).finalFailedTokens = rs.finalFailedTokens := rfl

theorem RetryState.addSuccessCount_totalSuccess (rs : RetryState) (n : Nat) :
    (rs.addSuccessCount n).totalSuccess = rs.totalSuccess + n := rfl

theorem RetryState.failedCount_eq (rs : RetryState) :
    rs.failedCount = rs.finalFailedTokens.length := rfl

theorem finishSend_nil (rs : RetryState) :
    finishSend [] rs =
      { success := rs.totalSuccess, failure := rs.failedCount, err := none,
        finalFailed := rs.finalFailedTokens,
        trace := [], waits := [], passes := [], cancelInfo := none } := rfl

theorem finishSend_ne_nil {tokens : List String} (rs : RetryState) (h : tokens ≠ []) :
    finishSend tokens rs =
      { success := (rs.markRemainingAsFailed tokens).totalSuccess,
        failure := (rs.markRemainingAsFailed tokens).failedCount, err := none,
        finalFailed := (rs.markRemainingAsFailed tokens).finalFailedTokens,
        trace := [], waits := [], passes := [], cancelInfo := none } := by
  rw [finishSend]
  simp only [if_neg h]

theorem sendLoop_zero (g : Gateway) (cancel : Nat → Bool) (attempt : Nat)
    (tokens : List String) (rs : RetryState) (k : Nat) :
    sendLoop g cancel 0 attempt tokens rs k = finishSend tokens rs := rfl

theorem sendLoop_succ_empty (g : Gateway) (cancel : Nat → Bool) (fuel attempt : Nat)
    (rs : RetryState) (k : Nat) :
    sendLoop g cancel (fuel + 1) attempt [] rs k = finishSend [] rs := by
  simp only [sendLoop, if_true]

theorem sendLoop_succ_done (g : Gateway) (cancel : Nat → Bool) (fuel attempt : Nat)
    {tokens : List String} (rs : RetryState) (k : Nat) (htok : tokens ≠ [])
    (hretr : (sendBatches g k tokens rs).result.retryableTokens = []) :
    sendLoop g cancel (fuel + 1) attempt tokens rs k =
      { success := ((sendBatches g k tokens rs).rs.addSuccessCount
          (sendBatches g k tokens rs).result.successCount).totalSuccess,
        failure := ((sendBatches g k tokens rs).rs.addSuccessCount
          (sendBatches g k tokens rs).result.successCount).failedCount,
        err := none,
        finalFailed := ((sendBatches g k tokens rs).rs.addSuccessCount
          (sendBatches g k tokens rs).result.successCount).finalFailedTokens,
        trace := (sendBatches g k tokens rs).calls, waits := [],
        passes := [(sendBatches g k tokens rs).result.successCount],
        cancelInfo := none } := by
  simp only [sendLoop]
  rw [if_neg htok, if_pos hretr, finishSend_nil]

theorem sendLoop_succ_cancel (g : Gateway) (cancel : Nat → Bool) (fuel attempt : Nat)
    {tokens : List String} (rs : RetryState) (k : Nat) (htok : tokens ≠ [])
    (hretr : (sendBatches g k tokens rs).result.retryableTokens ≠ [])
    (hlt : attempt < maxRetries) (hcan : cancel attempt = true) :
    sendLoop g cancel (fuel + 1) attempt tokens rs k =
      { success := ((sendBatches g k tokens rs).rs.addSuccessCount
          (sendBatches g k tokens rs).result.successCount).totalSuccess,
        failure := ((sendBatches g k tokens rs).rs.addSuccessCount
            (sendBatches g k tokens rs).result.successCount).failedCount +
          (uniqueTokens (sendBatches g k tokens rs).result.retryableTokens).length,
        err := some FCMError.contextCanceled,
        finalFailed := ((sendBatches g k tokens rs).rs.addSuccessCount
          (sendBatches g k tokens rs).result.successCount).finalFailedTokens,
        trace := (sendBatches g k tokens rs).calls, waits := [],
        passes := [(sendBatches g k tokens rs).result.successCount],
        cancelInfo := some
          (((sendBatches g k tokens rs).rs.addSuccessCount
            (sendBatches g k tokens rs).result.successCount).finalFailedTokens,
           uniqueTokens (sendBatches g k tokens rs).result.retryableTokens) } := by
  simp only [sendLoop]
  rw [if_neg htok, if_neg hretr, if_pos hlt, waitForRetry, if_pos hcan]

theorem sendLoop_succ_wait (g : Gateway) (cancel : Nat → Bool) (fuel attempt : Nat)
    {tokens : List String} (rs : RetryState) (k : Nat) (htok : tokens ≠ [])
    (hretr : (sendBatches g k tokens rs).result.retryableTokens ≠ [])
    (hlt : attempt < maxRetries) (hcan : cancel attempt = false) :
    sendLoop g cancel (fuel + 1) attempt tokens rs k =
      { sendLoop g cancel fuel (attempt + 1)
          (uniqueTokens (sendBatches g k tokens rs).result.retryableTokens)
          ((sendBatches g k tokens rs).rs.addSuccessCount
            (sendBatches g k tokens rs).result.successCount)
          (sendBatches g k tokens rs).nextCall with
        trace := (sendBatches g k tokens rs).calls ++
          (sendLoop g cancel fuel (attempt + 1)
            (uniqueTokens (sendBatches g k tokens rs).result.retryableTokens)
            ((sendBatches g k tokens rs).rs.addSuccessCount
              (sendBatches g k tokens rs).result.successCount)
            (sendBatches g k tokens rs).nextCall).trace,
        waits := backoffDelay attempt ::
          (sendLoop g cancel fuel (attempt + 1)
            (uniqueTokens (sendBatches g k tokens rs).result.retryableTokens)
            ((sendBatches g k tokens rs).rs.addSuccessCount
              (sendBatches g k tokens rs).result.successCount)
            (sendBatches g k tokens rs).nextCall).waits,
        passes := (sendBatches g k tokens rs).result.successCount ::
          (sendLoop g cancel fuel (attempt + 1)
            (uniqueTokens (sendBatches g k tokens rs).result.retryableTokens)
            ((sendBatches g k tokens rs).rs.addSuccessCount
              (sendBatches g k tokens rs).result.successCount)
            (sendBatches g k tokens rs).nextCall).passes } := by
  simp only [sendLoop]
  rw [if_neg htok, if_neg hretr, if_pos hlt, waitForRetry, if_neg (by rw [hcan]; exact Bool.false_ne_true)]

theorem sendLoop_succ_last (g : Gateway) (cancel : Nat → Bool) (fuel attempt : Nat)
    {tokens : List String} (rs : RetryState) (k : Nat) (htok : tokens ≠ [])
    (hretr : (sendBatches g k tokens rs).result.retryableTokens ≠ [])
    (hge : ¬ attempt < maxRetries) :
    sendLoop g cancel (fuel + 1) attempt tokens rs k =
      { sendLoop g cancel fuel (attempt + 1)
          (uniqueTokens (sendBatches g k tokens rs).result.retryableTokens)
          ((sendBatches g k tokens rs).rs.addSuccessCount
            (sendBatches g k tokens rs).result.successCount)
          (sendBatches g k tokens rs).nextCall with
        trace := (sendBatches g k tokens rs).calls ++
          (sendLoop g cancel fuel (attempt + 1)
            (uniqueTokens (sendBatches g k tokens rs).result.retryableTokens)
            ((sendBatches g k tokens rs).rs.addSuccessCount
              (sendBatches g k tokens rs).result.successCount)
            (sendBatches g k tokens rs).nextCall).trace,
        passes := (sendBatches g k tokens rs).result.successCount ::
          (sendLoop g cancel fuel (attempt + 1)
            (uniqueTokens (sendBatches g k tokens rs).result.retryableTokens)
            ((sendBatches g k tokens rs).rs.addSuccessCount
              (sendBatches g k tokens rs).result.successCount)
            (sendBatches g k tokens rs).nextCall).passes } := by
  simp only [sendLoop]
  rw [if_neg htok, if_neg hretr, if_neg hge]

end FCM

/-! ## Lemmas: sendBatches over the chunk decomposition -/

namespace FCM

theorem sendBatches_def (g : Gateway) (k : Nat) (tokens : List String) (rs : RetryState) :
    sendBatches g k tokens rs = sendBatchesList g k (chunksOf tokens) rs := rfl

theorem sendBatches_rs_totalSuccess (g : Gateway) (k : Nat) (tokens : List String)
    (rs : RetryState) : (sendBatches g k tokens rs).rs.totalSuccess = rs.totalSuccess :=
  sendBatchesList_rs_totalSuccess g (chunksOf tokens) k rs

theorem sendBatches_failed_mono (g : Gateway) (k : Nat) (tokens : List String)
    (rs : RetryState) :
    rs.finalFailedTokens ⊆ (sendBatches g k tokens rs).rs.finalFailedTokens :=
  sendBatchesList_failed_mono g (chunksOf tokens) k rs

theorem sendBatches_retr_subset (g : Gateway) (k : Nat) (tokens : List String)
    (rs : RetryState) :
    ∀ t ∈ (sendBatches g k tokens rs).result.retryableTokens, t ∈ tokens := by
  intro t ht
  have := sendBatchesList_retr_subset g (chunksOf tokens) k rs t ht
  rwa [chunksOf_flatten] at this

theorem sendBatches_count (g : Gateway) (k : Nat) (tokens : List String)
    (rs : RetryState) (hwf : WFGateway g) :
    (sendBatches g k tokens rs).result.successCount +
      (sendBatches g k tokens rs).rs.finalFailedTokens.length +
      (sendBatches g k tokens rs).result.retryableTokens.length ≤
      tokens.length + rs.finalFailedTokens.length := by
  have := sendBatchesList_count g (chunksOf tokens) hwf k rs
  rwa [chunksOf_flatten] at this

theorem sendBatches_calls_batch_subset (g : Gateway) (k : Nat) (tokens : List String)
    (rs : RetryState) :
    ∀ e ∈ (sendBatches g k tokens rs).calls, ∀ t ∈ e.1, t ∈ tokens := by
  intro e he t ht
  have hmem : e.1 ∈ (sendBatches g k tokens rs).calls.map Prod.fst :=
    List.mem_map.mpr ⟨e, he, rfl⟩
  rw [sendBatches_def, sendBatchesList_calls_fst g (chunksOf tokens) k rs] at hmem
  rw [← chunksOf_flatten tokens]
  exact List.mem_flatten.mpr ⟨e.1, hmem, ht⟩

theorem sendBatches_calls_batch_nodup (g : Gateway) (k : Nat) {tokens : List String}
    (rs : RetryState) (hnd : tokens.Nodup) :
    ∀ e ∈ (sendBatches g k tokens rs).calls, e.1.Nodup := by
  intro e he
  have hmem : e.1 ∈ (sendBatches g k tokens rs).calls.map Prod.fst :=
    List.mem_map.mpr ⟨e, he, rfl⟩
  rw [sendBatches_def, sendBatchesList_calls_fst g (chunksOf tokens) k rs] at hmem
  exact (chunksOf_nodup hnd).1 e.1 hmem

theorem sendBatches_calls_disjoint (g : Gateway) (k : Nat) {tokens : List String}
    (rs : RetryState) (hnd : tokens.Nodup)
    (hdisj : ∀ t ∈ tokens, t ∉ rs.finalFailedTokens) :
    ∀ e ∈ (sendBatches g k tokens rs).calls, ∀ t ∈ e.2, t ∉ e.1 :=
  sendBatchesList_calls_disjoint g (chunksOf tokens) k rs
    (by rw [chunksOf_flatten]; exact hdisj) (chunksOf_nodup hnd).2

theorem sendBatches_retr_not_failed (g : Gateway) (k : Nat) {tokens : List String}
    (rs : RetryState) (hnd : tokens.Nodup) :
    ∀ t ∈ (sendBatches g k tokens rs).result.retryableTokens,
      t ∉ (sendBatches g k tokens rs).rs.finalFailedTokens :=
  sendBatchesList_retr_not_failed g (chunksOf tokens) k rs
    (chunksOf_nodup hnd).1 (chunksOf_nodup hnd).2

theorem sendBatches_calls_snd_subset (g : Gateway) (k : Nat) (tokens : List String)
    (rs : RetryState) :
    ∀ e ∈ (sendBatches g k tokens rs).calls,
      ∀ t ∈ e.2, t ∈ (sendBatches g k tokens rs).rs.finalFailedTokens :=
  sendBatchesList_calls_snd_subset g (chunksOf tokens) k rs

theorem sendBatches_calls_chain (g : Gateway) (k : Nat) (tokens : List String)
    (rs : RetryState) :
    List.Chain' (fun e e' : List String × List String => e.2 ⊆ e'.2)
      (sendBatches g k tokens rs).calls :=
  sendBatchesList_calls_chain g (chunksOf tokens) k rs

theorem sendBatches_calls_head (g : Gateway) (k : Nat) (tokens : List String)
    (rs : RetryState) :
    ∀ e ∈ (sendBatches g k tokens rs).calls.head?, e.2 = rs.finalFailedTokens :=
  sendBatchesList_calls_head g (chunksOf tokens) k rs

theorem sendBatches_calls_ne_nil (g : Gateway) (k : Nat) {tokens : List String}
    (rs : RetryState) (htok : tokens ≠ []) :
    (sendBatches g k tokens rs).calls ≠ [] := by
  intro hc
  have := sendBatchesList_calls_fst g (chunksOf tokens) k rs
  rw [← sendBatches_def, hc] at this
  have hch : chunksOf tokens = [] := this.symm
  have := chunksOf_flatten tokens
  rw [hch] at this
  exact htok this.symm

end FCM

/-! ## Lemmas: the retry loop -/

namespace FCM

theorem sendLoop_success_eq (g : Gateway) (cancel : Nat → Bool) (fuel : Nat) :
    ∀ attempt tokens rs k,
      (sendLoop g cancel fuel attempt tokens rs k).success =
        rs.totalSuccess + (sendLoop g cancel fuel attempt tokens rs k).passes.sum := by
  induction fuel with
  | zero =>
    intro attempt tokens rs k
    rw [sendLoop_zero]
    by_cases htok : tokens = []
    · subst htok; rw [finishSend_nil]; simp
    · rw [finishSend_ne_nil rs htok]
      simp [rs.markRemainingAsFailed_totalSuccess tokens]
  | succ fuel ih =>
    intro attempt tokens rs k
    by_cases htok : tokens = []
    · subst htok; rw [sendLoop_succ_empty, finishSend_nil]; simp
    · by_cases hretr : (sendBatches g k tokens rs).result.retryableTokens = []
      · rw [sendLoop_succ_done g cancel fuel attempt rs k htok hretr]
        simp [RetryState.addSuccessCount_totalSuccess, sendBatches_rs_totalSuccess]
      · by_cases hlt : attempt < maxRetries
        · cases hcan : cancel attempt with
          | true =>
            rw [sendLoop_succ_cancel g cancel fuel attempt rs k htok hretr hlt hcan]
            simp [RetryState.addSuccessCount_totalSuccess, sendBatches_rs_totalSuccess]
          | false =>
            rw [sendLoop_succ_wait g cancel fuel attempt rs k htok hretr hlt hcan]
            simp only [List.sum_cons]
            rw [ih]
            simp only [RetryState.addSuccessCount_totalSuccess, sendBatches_rs_totalSuccess]
            omega
        · rw [sendLoop_succ_last g cancel fuel attempt rs k htok hretr hlt]
          simp only [List.sum_cons]
          rw [ih]
          simp only [RetryState.addSuccessCount_totalSuccess, sendBatches_rs_totalSuccess]
          omega

theorem sendLoop_err_cases (g : Gateway) (cancel : Nat → Bool) (fuel : Nat) :
    ∀ attempt tokens rs k,
      (sendLoop g cancel fuel attempt tokens rs k).err = none ∨
      (sendLoop g cancel fuel attempt tokens rs k).err = some FCMError.contextCanceled := by
  induction fuel with
  | zero =>
    intro attempt tokens rs k
    rw [sendLoop_zero]
    by_cases htok : tokens = []
    · subst htok; rw [finishSend_nil]; exact Or.inl rfl
    · rw [finishSend_ne_nil rs htok]; exact Or.inl rfl
  | succ fuel ih =>
    intro attempt tokens rs k
    by_cases htok : tokens = []
    · subst htok; rw [sendLoop_succ_empty, finishSend_nil]; exact Or.inl rfl
    · by_cases hretr : (sendBatches g k tokens rs).result.retryableTokens = []
      · rw [sendLoop_succ_done g cancel fuel attempt rs k htok hretr]; exact Or.inl rfl
      · by_cases hlt : attempt < maxRetries
        · cases hcan : cancel attempt with
          | true =>
            rw [sendLoop_succ_cancel g cancel fuel attempt rs k htok hretr hlt hcan]
            exact Or.inr rfl
          | false =>
            rw [sendLoop_succ_wait g cancel fuel attempt rs k htok hretr hlt hcan]
            exact ih (attempt + 1) _ _ _
        · rw [sendLoop_succ_last g cancel fuel attempt rs k htok hretr hlt]
          exact ih (attempt + 1) _ _ _

theorem sendLoop_err_none (g : Gateway) (cancel : Nat → Bool)
    (hnc : ∀ j, cancel j = false) (fuel : Nat) :
    ∀ attempt tokens rs k, (sendLoop g cancel fuel attempt tokens rs k).err = none := by
  induction fuel with
  | zero =>
    intro attempt tokens rs k
    rw [sendLoop_zero]
    by_cases htok : tokens = []
    · subst htok; rw [finishSend_nil]
    · rw [finishSend_ne_nil rs htok]
  | succ fuel ih =>
    intro attempt tokens rs k
    by_cases htok : tokens = []
    · subst htok; rw [sendLoop_succ_empty, finishSend_nil]
    · by_cases hretr : (sendBatches g k tokens rs).result.retryableTokens = []
      · rw [sendLoop_succ_done g cancel fuel attempt rs k htok hretr]
      · by_cases hlt : attempt < maxRetries
        · rw [sendLoop_succ_wait g cancel fuel attempt rs k htok hretr hlt (hnc attempt)]
          exact ih (attempt + 1) _ _ _
        · rw [sendLoop_succ_last g cancel fuel attempt rs k htok hretr hlt]
          exact ih (attempt + 1) _ _ _

theorem sendLoop_err_some (g : Gateway) (cancel : Nat → Bool) (fuel : Nat) :
    ∀ attempt tokens rs k e,
      (sendLoop g cancel fuel attempt tokens rs k).err = some e →
      ∃ j, attempt ≤ j ∧ j < maxRetries ∧ cancel j = true := by
  induction fuel with
  | zero =>
    intro attempt tokens rs k e h
    rw [sendLoop_zero] at h
    by_cases htok : tokens = []
    · subst htok; rw [finishSend_nil] at h; cases h
    · rw [finishSend_ne_nil rs htok] at h; cases h
  | succ fuel ih =>
    intro attempt tokens rs k e h
    by_cases htok : tokens = []
    · subst htok; rw [sendLoop_succ_empty, finishSend_nil] at h; cases h
    · by_cases hretr : (sendBatches g k tokens rs).result.retryableTokens = []
      · rw [sendLoop_succ_done g cancel fuel attempt rs k htok hretr] at h; cases h
      · by_cases hlt : attempt < maxRetries
        · cases hcan : cancel attempt with
          | true => exact ⟨attempt, le_refl attempt, hlt, hcan⟩
          | false =>
            rw [sendLoop_succ_wait g cancel fuel attempt rs k htok hretr hlt hcan] at h
            obtain ⟨j, hj1, hj2, hj3⟩ := ih (attempt + 1) _ _ _ e h
            exact ⟨j, le_trans (Nat.le_succ attempt) hj1, hj2, hj3⟩
        · rw [sendLoop_succ_last g cancel fuel attempt rs k htok hretr hlt] at h
          obtain ⟨j, hj1, hj2, hj3⟩ := ih (attempt + 1) _ _ _ e h
          exact ⟨j, le_trans (Nat.le_succ attempt) hj1, hj2, hj3⟩

theorem sendLoop_count (g : Gateway) (cancel : Nat → Bool) (hwf : WFGateway g)
    (fuel : Nat) :
    ∀ attempt tokens rs k,
      (sendLoop g cancel fuel attempt tokens rs k).success +
        (sendLoop g cancel fuel attempt tokens rs k).failure ≤
        rs.totalSuccess + rs.finalFailedTokens.length + tokens.length := by
  induction fuel with
  | zero =>
    intro attempt tokens rs k
    rw [sendLoop_zero]
    by_cases htok : tokens = []
    · subst htok; rw [finishSend_nil]
      simp [RetryState.failedCount_eq]
    · rw [finishSend_ne_nil rs htok]
      have h1 := rs.markRemainingAsFailed_totalSuccess tokens
      have h2 := rs.length_markRemainingAsFailed_le tokens
      simp only [RetryState.failedCount_eq]
      omega
  | succ fuel ih =>
    intro attempt tokens rs k
    by_cases htok : tokens = []
    · subst htok; rw [sendLoop_succ_empty, finishSend_nil]
      simp [RetryState.failedCount_eq]
    · have hcount := sendBatches_count g k tokens rs hwf
      have hts := sendBatches_rs_totalSuccess g k tokens rs
      by_cases hretr : (sendBatches g k tokens rs).result.retryableTokens = []
      · rw [sendLoop_succ_done g cancel fuel attempt rs k htok hretr]
        simp only [RetryState.failedCount_eq, RetryState.addSuccessCount_totalSuccess,
          RetryState.addSuccessCount_finalFailedTokens]
        omega
      · have hnext : (uniqueTokens (sendBatches g k tokens rs).result.retryableTokens).length ≤
            (sendBatches g k tokens rs).result.retryableTokens.length :=
          length_uniqueTokens_le _
        by_cases hlt : attempt < maxRetries
        · cases hcan : cancel attempt with
          | true =>
            rw [sendLoop_succ_cancel g cancel fuel attempt rs k htok hretr hlt hcan]
            simp only [RetryState.failedCount_eq, RetryState.addSuccessCount_totalSuccess,
              RetryState.addSuccessCount_finalFailedTokens]
            omega
          | false =>
            rw [sendLoop_succ_wait g cancel fuel attempt rs k htok hretr hlt hcan]
            have := ih (attempt + 1)
              (uniqueTokens (sendBatches g k tokens rs).result.retryableTokens)
              ((sendBatches g k tokens rs).rs.addSuccessCount
                (sendBatches g k tokens rs).result.successCount)
              (sendBatches g k tokens rs).nextCall
            simp only [RetryState.failedCount_eq, RetryState.addSuccessCount_totalSuccess,
              RetryState.addSuccessCount_finalFailedTokens] at this ⊢
            omega
        · rw [sendLoop_succ_last g cancel fuel attempt rs k htok hretr hlt]
          have := ih (attempt + 1)
            (uniqueTokens (sendBatches g k tokens rs).result.retryableTokens)
            ((sendBatches g k tokens rs).rs.addSuccessCount
              (sendBatches g k tokens rs).result.successCount)
            (sendBatches g k tokens rs).nextCall
          simp only [RetryState.failedCount_eq, RetryState.addSuccessCount_totalSuccess,
            RetryState.addSuccessCount_finalFailedTokens] at this ⊢
          omega

end FCM

/-! ## Lemmas: trace and wait structure of the retry loop -/

namespace FCM

theorem sendLoop_trace_subset (g : Gateway) (cancel : Nat → Bool) (fuel : Nat) :
    ∀ attempt tokens rs k,
      ∀ e ∈ (sendLoop g cancel fuel attempt tokens rs k).trace, ∀ t ∈ e.1, t ∈ tokens := by
  induction fuel with
  | zero =>
    intro attempt tokens rs k e he
    rw [sendLoop_zero] at he
    by_cases htok : tokens = []
    · subst htok; rw [finishSend_nil] at he; exact absurd he (List.not_mem_nil e)
    · rw [finishSend_ne_nil rs htok] at he; exact absurd he (List.not_mem_nil e)
  | succ fuel ih =>
    intro attempt tokens rs k e he
    by_cases htok : tokens = []
    · subst htok; rw [sendLoop_succ_empty, finishSend_nil] at he
      exact absurd he (List.not_mem_nil e)
    · by_cases hretr : (sendBatches g k tokens rs).result.retryableTokens = []
      · rw [sendLoop_succ_done g cancel fuel attempt rs k htok hretr] at he
        exact sendBatches_calls_batch_subset g k tokens rs e he
      · by_cases hlt : attempt < maxRetries
        · cases hcan : cancel attempt with
          | true =>
            rw [sendLoop_succ_cancel g cancel fuel attempt rs k htok hretr hlt hcan] at he
            exact sendBatches_calls_batch_subset g k tokens rs e he
          | false =>
            rw [sendLoop_succ_wait g cancel fuel attempt rs k htok hretr hlt hcan] at he
            rcases List.mem_append.mp he with he | he
            · exact sendBatches_calls_batch_subset g k tokens rs e he
            · intro t ht
              have := ih (attempt + 1) _ _ _ e he t ht
              exact sendBatches_retr_subset g k tokens rs t ((mem_uniqueTokens _).mp this).1
        · rw [sendLoop_succ_last g cancel fuel attempt rs k htok hretr hlt] at he
          rcases List.mem_append.mp he with he | he
          · exact sendBatches_calls_batch_subset g k tokens rs e he
          · intro t ht
            have := ih (attempt + 1) _ _ _ e he t ht
            exact sendBatches_retr_subset g k tokens rs t ((mem_uniqueTokens _).mp this).1

theorem sendLoop_trace_nodup (g : Gateway) (cancel : Nat → Bool) (fuel : Nat) :
    ∀ attempt tokens rs k, tokens.Nodup →
      ∀ e ∈ (sendLoop g cancel fuel attempt tokens rs k).trace, e.1.Nodup := by
  induction fuel with
  | zero =>
    intro attempt tokens rs k _ e he
    rw [sendLoop_zero] at he
    by_cases htok : tokens = []
    · subst htok; rw [finishSend_nil] at he; exact absurd he (List.not_mem_nil e)
    · rw [finishSend_ne_nil rs htok] at he; exact absurd he (List.not_mem_nil e)
  | succ fuel ih =>
    intro attempt tokens rs k hnd e he
    by_cases htok : tokens = []
    · subst htok; rw [sendLoop_succ_empty, finishSend_nil] at he
      exact absurd he (List.not_mem_nil e)
    · by_cases hretr : (sendBatches g k tokens rs).result.retryableTokens = []
      · rw [sendLoop_succ_done g cancel fuel attempt rs k htok hretr] at he
        exact sendBatches_calls_batch_nodup g k rs hnd e he
      · by_cases hlt : attempt < maxRetries
        · cases hcan : cancel attempt with
          | true =>
            rw [sendLoop_succ_cancel g cancel fuel attempt rs k htok hretr hlt hcan] at he
            exact sendBatches_calls_batch_nodup g k rs hnd e he
          | false =>
            rw [sendLoop_succ_wait g cancel fuel attempt rs k htok hretr hlt hcan] at he
            rcases List.mem_append.mp he with he | he
            · exact sendBatches_calls_batch_nodup g k rs hnd e he
            · exact ih (attempt + 1) _ _ _ (nodup_uniqueTokens _) e he
        · rw [sendLoop_succ_last g cancel fuel attempt rs k htok hretr hlt] at he
          rcases List.mem_append.mp he with he | he
          · exact sendBatches_calls_batch_nodup g k rs hnd e he
          · exact ih (attempt + 1) _ _ _ (nodup_uniqueTokens _) e he

theorem sendLoop_trace_head (g : Gateway) (cancel : Nat → Bool) (fuel : Nat) :
    ∀ attempt tokens rs k,
      ∀ e ∈ (sendLoop g cancel fuel attempt tokens rs k).trace.head?,
        e.2 = rs.finalFailedTokens := by
  cases fuel with
  | zero =>
    intro attempt tokens rs k e he
    rw [sendLoop_zero] at he
    by_cases htok : tokens = []
    · subst htok; rw [finishSend_nil] at he; cases he
    · rw [finishSend_ne_nil rs htok] at he; cases he
  | succ fuel =>
    intro attempt tokens rs k e he
    by_cases htok : tokens = []
    · subst htok; rw [sendLoop_succ_empty, finishSend_nil] at he; cases he
    · by_cases hretr : (sendBatches g k tokens rs).result.retryableTokens = []
      · rw [sendLoop_succ_done g cancel fuel attempt rs k htok hretr] at he
        exact sendBatches_calls_head g k tokens rs e he
      · by_cases hlt : attempt < maxRetries
        · cases hcan : cancel attempt with
          | true =>
            rw [sendLoop_succ_cancel g cancel fuel attempt rs k htok hretr hlt hcan] at he
            exact sendBatches_calls_head g k tokens rs e he
          | false =>
            rw [sendLoop_succ_wait g cancel fuel attempt rs k htok hretr hlt hcan] at he
            obtain ⟨c, cs, hc⟩ :=
              List.exists_cons_of_ne_nil (sendBatches_calls_ne_nil g k rs htok)
            rw [hc] at he
            rw [List.cons_append] at he
            cases he
            exact sendBatches_calls_head g k tokens rs e (by rw [hc]; rfl)
        · rw [sendLoop_succ_last g cancel fuel attempt rs k htok hretr hlt] at he
          obtain ⟨c, cs, hc⟩ :=
            List.exists_cons_of_ne_nil (sendBatches_calls_ne_nil g k rs htok)
          rw [hc] at he
          rw [List.cons_append] at he
          cases he
          exact sendBatches_calls_head g k tokens rs e (by rw [hc]; rfl)

end FCM

/-! ## Lemmas: finality, waits, and cancellation accounting of the loop -/

namespace FCM

theorem sendLoop_finality (g : Gateway) (cancel : Nat → Bool) (fuel : Nat) :
    ∀ attempt tokens rs k, tokens.Nodup →
      (∀ t ∈ tokens, t ∉ rs.finalFailedTokens) →
      (∀ e ∈ (sendLoop g cancel fuel attempt tokens rs k).trace, ∀ t ∈ e.2, t ∉ e.1) ∧
      List.Chain' (fun e e' : List String × List String => e.2 ⊆ e'.2)
        (sendLoop g cancel fuel attempt tokens rs k).trace ∧
      (∀ e ∈ (sendLoop g cancel fuel attempt tokens rs k).trace,
        e.2 ⊆ (sendLoop g cancel fuel attempt tokens rs k).finalFailed) ∧
      rs.finalFailedTokens ⊆ (sendLoop g cancel fuel attempt tokens rs k).finalFailed := by
  induction fuel with
  | zero =>
    intro attempt tokens rs k _ _
    rw [sendLoop_zero]
    by_cases htok : tokens = []
    · subst htok; rw [finishSend_nil]
      exact ⟨fun e he => absurd he (List.not_mem_nil e), List.chain'_nil,
        fun e he => absurd he (List.not_mem_nil e), fun _ h => h⟩
    · rw [finishSend_ne_nil rs htok]
      exact ⟨fun e he => absurd he (List.not_mem_nil e), List.chain'_nil,
        fun e he => absurd he (List.not_mem_nil e), rs.subset_markRemainingAsFailed tokens⟩
  | succ fuel ih =>
    intro attempt tokens rs k hnd hdisj
    by_cases htok : tokens = []
    · subst htok; rw [sendLoop_succ_empty, finishSend_nil]
      exact ⟨fun e he => absurd he (List.not_mem_nil e), List.chain'_nil,
        fun e he => absurd he (List.not_mem_nil e), fun _ h => h⟩
    · by_cases hretr : (sendBatches g k tokens rs).result.retryableTokens = []
      · rw [sendLoop_succ_done g cancel fuel attempt rs k htok hretr]
        refine ⟨sendBatches_calls_disjoint g k rs hnd hdisj,
          sendBatches_calls_chain g k tokens rs, ?_, ?_⟩
        · intro e he t ht
          rw [RetryState.addSuccessCount_finalFailedTokens]
          exact sendBatches_calls_snd_subset g k tokens rs e he t ht
        · intro t ht
          rw [RetryState.addSuccessCount_finalFailedTokens]
          exact sendBatches_failed_mono g k tokens rs ht
      · by_cases hlt : attempt < maxRetries
        · cases hcan : cancel attempt with
          | true =>
            rw [sendLoop_succ_cancel g cancel fuel attempt rs k htok hretr hlt hcan]
            refine ⟨sendBatches_calls_disjoint g k rs hnd hdisj,
              sendBatches_calls_chain g k tokens rs, ?_, ?_⟩
            · intro e he t ht
              rw [RetryState.addSuccessCount_finalFailedTokens]
              exact sendBatches_calls_snd_subset g k tokens rs e he t ht
            · intro t ht
              rw [RetryState.addSuccessCount_finalFailedTokens]
              exact sendBatches_failed_mono g k tokens rs ht
          | false =>
            rw [sendLoop_succ_wait g cancel fuel attempt rs k htok hretr hlt hcan]
            have hdisj' : ∀ t ∈ uniqueTokens (sendBatches g k tokens rs).result.retryableTokens,
                t ∉ ((sendBatches g k tokens rs).rs.addSuccessCount
                  (sendBatches g k tokens rs).result.successCount).finalFailedTokens := by
              intro t ht
              rw [RetryState.addSuccessCount_finalFailedTokens]
              exact sendBatches_retr_not_failed g k rs hnd t ((mem_uniqueTokens _).mp ht).1
            obtain ⟨iha, ihb, ihc, ihd⟩ :=
              ih (attempt + 1) (uniqueTokens (sendBatches g k tokens rs).result.retryableTokens)
                ((sendBatches g k tokens rs).rs.addSuccessCount
                  (sendBatches g k tokens rs).result.successCount)
                (sendBatches g k tokens rs).nextCall (nodup_uniqueTokens _) hdisj'
            refine ⟨?_, ?_, ?_, ?_⟩
            · intro e he
              rcases List.mem_append.mp he with he | he
              · exact sendBatches_calls_disjoint g k rs hnd hdisj e he
              · exact iha e he
            · refine List.chain'_append.mpr
                ⟨sendBatches_calls_chain g k tokens rs, ihb, ?_⟩
              intro x hx y hy
              have hx' : x ∈ (sendBatches g k tokens rs).calls := by
                obtain ⟨h5, hx2⟩ := List.mem_getLast?_eq_getLast hx
                rw [hx2]
                exact List.getLast_mem h5
              have hy' := sendLoop_trace_head g cancel fuel (attempt + 1) _ _ _ y hy
              rw [hy', RetryState.addSuccessCount_finalFailedTokens]
              exact fun t ht => sendBatches_calls_snd_subset g k tokens rs x hx' t ht
            · intro e he
              rcases List.mem_append.mp he with he | he
              · intro t ht
                refine ihd ?_
                rw [RetryState.addSuccessCount_finalFailedTokens]
                exact sendBatches_calls_snd_subset g k tokens rs e he t ht
              · exact ihc e he
            · intro t ht
              refine ihd ?_
              rw [RetryState.addSuccessCount_finalFailedTokens]
              exact sendBatches_failed_mono g k tokens rs ht
        · rw [sendLoop_succ_last g cancel fuel attempt rs k htok hretr hlt]
          have hdisj' : ∀ t ∈ uniqueTokens (sendBatches g k tokens rs).result.retryableTokens,
              t ∉ ((sendBatches g k tokens rs).rs.addSuccessCount
                (sendBatches g k tokens rs).result.successCount).finalFailedTokens := by
            intro t ht
            rw [RetryState.addSuccessCount_finalFailedTokens]
            exact sendBatches_retr_not_failed g k rs hnd t ((mem_uniqueTokens _).mp ht).1
          obtain ⟨iha, ihb, ihc, ihd⟩ :=
            ih (attempt + 1) (uniqueTokens (sendBatches g k tokens rs).result.retryableTokens)
              ((sendBatches g k tokens rs).rs.addSuccessCount
                (sendBatches g k tokens rs).result.successCount)
              (sendBatches g k tokens rs).nextCall (nodup_uniqueTokens _) hdisj'
          refine ⟨?_, ?_, ?_, ?_⟩
          · intro e he
            rcases List.mem_append.mp he with he | he
            · exact sendBatches_calls_disjoint g k rs hnd hdisj e he
            · exact iha e he
          · refine List.chain'_append.mpr
              ⟨sendBatches_calls_chain g k tokens rs, ihb, ?_⟩
            intro x hx y hy
            have hx' : x ∈ (sendBatches g k tokens rs).calls := by
              obtain ⟨h5, hx2⟩ := List.mem_getLast?_eq_getLast hx
              rw [hx2]
              exact List.getLast_mem h5
            have hy' := sendLoop_trace_head g cancel fuel (attempt + 1) _ _ _ y hy
            rw [hy', RetryState.addSuccessCount_finalFailedTokens]
            exact fun t ht => sendBatches_calls_snd_subset g k tokens rs x hx' t ht
          · intro e he
            rcases List.mem_append.mp he with he | he
            · intro t ht
              refine ihd ?_
              rw [RetryState.addSuccessCount_finalFailedTokens]
              exact sendBatches_calls_snd_subset g k tokens rs e he t ht
            · exact ihc e he
          · intro t ht
            refine ihd ?_
            rw [RetryState.addSuccessCount_finalFailedTokens]
            exact sendBatches_failed_mono g k tokens rs ht

end FCM

/-! ## Lemmas: wait list shape and cancellation snapshot -/

namespace FCM

theorem sendLoop_waits (g : Gateway) (cancel : Nat → Bool) (fuel : Nat) :
    ∀ attempt tokens rs k,
      ∃ m, (m = 0 ∨ attempt + m ≤ maxRetries) ∧
        (sendLoop g cancel fuel attempt tokens rs k).waits =
          (List.range' attempt m).map backoffDelay := by
  induction fuel with
  | zero =>
    intro attempt tokens rs k
    rw [sendLoop_zero]
    refine ⟨0, Or.inl rfl, ?_⟩
    by_cases htok : tokens = []
    · subst htok; rw [finishSend_nil]; rfl
    · rw [finishSend_ne_nil rs htok]; rfl
  | succ fuel ih =>
    intro attempt tokens rs k
    by_cases htok : tokens = []
    · subst htok; rw [sendLoop_succ_empty, finishSend_nil]
      exact ⟨0, Or.inl rfl, rfl⟩
    · by_cases hretr : (sendBatches g k tokens rs).result.retryableTokens = []
      · rw [sendLoop_succ_done g cancel fuel attempt rs k htok hretr]
        exact ⟨0, Or.inl rfl, rfl⟩
      · by_cases hlt : attempt < maxRetries
        · cases hcan : cancel attempt with
          | true =>
            rw [sendLoop_succ_cancel g cancel fuel attempt rs k htok hretr hlt hcan]
            exact ⟨0, Or.inl rfl, rfl⟩
          | false =>
            rw [sendLoop_succ_wait g cancel fuel attempt rs k htok hretr hlt hcan]
            obtain ⟨m, hm, heq⟩ := ih (attempt + 1)
              (uniqueTokens (sendBatches g k tokens rs).result.retryableTokens)
              ((sendBatches g k tokens rs).rs.addSuccessCount
                (sendBatches g k tokens rs).result.successCount)
              (sendBatches g k tokens rs).nextCall
            refine ⟨m + 1, Or.inr ?_, ?_⟩
            · rcases hm with rfl | hm
              · omega
              · omega
            · rw [List.range'_succ attempt m 1, List.map_cons]
              simp only
              rw [heq]
        · rw [sendLoop_succ_last g cancel fuel attempt rs k htok hretr hlt]
          obtain ⟨m, hm, heq⟩ := ih (attempt + 1)
            (uniqueTokens (sendBatches g k tokens rs).result.retryableTokens)
            ((sendBatches g k tokens rs).rs.addSuccessCount
              (sendBatches g k tokens rs).result.successCount)
            (sendBatches g k tokens rs).nextCall
          have hm0 : m = 0 := by
            rcases hm with rfl | hm
            · rfl
            · omega
          subst hm0
          refine ⟨0, Or.inl rfl, ?_⟩
          simp only
          rw [heq]
          rfl

theorem sendLoop_cancelInfo (g : Gateway) (cancel : Nat → Bool) (fuel : Nat) :
    ∀ attempt tokens rs k, tokens.Nodup → "" ∉ tokens →
      (∀ t ∈ tokens, t ∉ rs.finalFailedTokens) →
      ∀ e, (sendLoop g cancel fuel attempt tokens rs k).err = some e →
      ∃ fs p, (sendLoop g cancel fuel attempt tokens rs k).cancelInfo = some (fs, p) ∧
        (sendLoop g cancel fuel attempt tokens rs k).failure = fs.length + p.length ∧
        (sendLoop g cancel fuel attempt tokens rs k).finalFailed = fs ∧
        p ≠ [] ∧ (∀ t ∈ p, t ∉ fs) := by
  induction fuel with
  | zero =>
    intro attempt tokens rs k _ _ _ e h
    rw [sendLoop_zero] at h ⊢
    by_cases htok : tokens = []
    · subst htok; rw [finishSend_nil] at h; cases h
    · rw [finishSend_ne_nil rs htok] at h; cases h
  | succ fuel ih =>
    intro attempt tokens rs k hnd hne hdisj e h
    by_cases htok : tokens = []
    · subst htok; rw [sendLoop_succ_empty, finishSend_nil] at h; cases h
    · by_cases hretr : (sendBatches g k tokens rs).result.retryableTokens = []
      · rw [sendLoop_succ_done g cancel fuel attempt rs k htok hretr] at h; cases h
      · by_cases hlt : attempt < maxRetries
        · cases hcan : cancel attempt with
          | true =>
            rw [sendLoop_succ_cancel g cancel fuel attempt rs k htok hretr hlt hcan]
            refine ⟨((sendBatches g k tokens rs).rs.addSuccessCount
                (sendBatches g k tokens rs).result.successCount).finalFailedTokens,
              uniqueTokens (sendBatches g k tokens rs).result.retryableTokens,
              rfl, ?_, rfl, ?_, ?_⟩
            · rw [RetryState.failedCount_eq]
            · obtain ⟨t0, ht0⟩ := List.exists_mem_of_ne_nil _ hretr
              have ht0tok := sendBatches_retr_subset g k tokens rs t0 ht0
              exact List.ne_nil_of_mem ((mem_uniqueTokens _).mpr
                ⟨ht0, fun hc => hne (hc ▸ ht0tok)⟩)
            · intro t ht
              rw [RetryState.addSuccessCount_finalFailedTokens]
              exact sendBatches_retr_not_failed g k rs hnd t ((mem_uniqueTokens _).mp ht).1
          | false =>
            rw [sendLoop_succ_wait g cancel fuel attempt rs k htok hretr hlt hcan] at h ⊢
            refine ih (attempt + 1) _ _ _ (nodup_uniqueTokens _)
              (empty_not_mem_uniqueTokens _) ?_ e h
            intro t ht
            rw [RetryState.addSuccessCount_finalFailedTokens]
            exact sendBatches_retr_not_failed g k rs hnd t ((mem_uniqueTokens _).mp ht).1
        · rw [sendLoop_succ_last g cancel fuel attempt rs k htok hretr hlt] at h ⊢
          refine ih (attempt + 1) _ _ _ (nodup_uniqueTokens _)
            (empty_not_mem_uniqueTokens _) ?_ e h
          intro t ht
          rw [RetryState.addSuccessCount_finalFailedTokens]
          exact sendBatches_retr_not_failed g k rs hnd t ((mem_uniqueTokens _).mp ht).1

end FCM

/-! ## Lemmas: top level -/

namespace FCM

theorem cappedTokens_of_gt {tokens : List String}
    (h : FCMAbsoluteLimit < (uniqueTokens tokens).length) :
    cappedTokens tokens = (uniqueTokens tokens).take FCMAbsoluteLimit := by
  rw [cappedTokens]
  simp only [if_pos h]

theorem cappedTokens_of_le {tokens : List String}
    (h : ¬ FCMAbsoluteLimit < (uniqueTokens tokens).length) :
    cappedTokens tokens = uniqueTokens tokens := by
  rw [cappedTokens]
  simp only [if_neg h]

theorem cappedTokens_nodup (tokens : List String) : (cappedTokens tokens).Nodup := by
  by_cases h : FCMAbsoluteLimit < (uniqueTokens tokens).length
  · rw [cappedTokens_of_gt h]
    exact (nodup_uniqueTokens tokens).sublist (List.take_sublist _ _)
  · rw [cappedTokens_of_le h]
    exact nodup_uniqueTokens tokens

theorem cappedTokens_subset (tokens : List String) :
    ∀ t ∈ cappedTokens tokens, t ∈ uniqueTokens tokens := by
  by_cases h : FCMAbsoluteLimit < (uniqueTokens tokens).length
  · rw [cappedTokens_of_gt h]
    exact fun t ht => (List.take_sublist _ _).mem ht
  · rw [cappedTokens_of_le h]
    exact fun t ht => ht

theorem cappedTokens_no_empty (tokens : List String) : "" ∉ cappedTokens tokens :=
  fun h => empty_not_mem_uniqueTokens tokens (cappedTokens_subset tokens "" h)

theorem cappedTokens_length_le (tokens : List String) :
    (cappedTokens tokens).length ≤ (uniqueTokens tokens).length := by
  by_cases h : FCMAbsoluteLimit < (uniqueTokens tokens).length
  · rw [cappedTokens_of_gt h]
    exact (List.take_sublist _ _).length_le
  · rw [cappedTokens_of_le h]

theorem sendWithRetry_def (g : Gateway) (cancel : Nat → Bool) (l : List String) :
    sendWithRetry g cancel l = sendLoop g cancel maxRetries 1 l newRetryState 0 := rfl

theorem SendMulticastNotification_nil (g : Gateway) (cancel : Nat → Bool) :
    SendMulticastNotification g cancel [] =
      { success := 0, failure := 0, err := none, finalFailed := [],
        trace := [], waits := [], passes := [], cancelInfo := none } := rfl

theorem SendMulticastNotification_ne_nil (g : Gateway) (cancel : Nat → Bool)
    {tokens : List String} (h : tokens ≠ []) :
    SendMulticastNotification g cancel tokens =
      sendWithRetry g cancel (cappedTokens tokens) := by
  rw [SendMulticastNotification, if_neg h]

theorem newRetryState_no_failed : ∀ t : String, t ∉ newRetryState.finalFailedTokens :=
  fun t => List.not_mem_nil t

/-! ## Claim theorems -/

/-- C1.  Finality invariant: for every input and every sequence of gateway
responses, once a token enters `finalFailedTokens` it is never removed — the
per-call snapshots grow monotonically along the trace of gateway calls and
each is contained in the final failed set — and a token that is in the
failed set at the moment a batch is issued never appears in that batch (so a
finalized token is never resubmitted, by the membership checks in
`filterRetryableTokens` and `shouldRetryToken`). -/
theorem claim_C1_finality (g : Gateway) (cancel : Nat → Bool) (tokens : List String) :
    (∀ e ∈ (SendMulticastNotification g cancel tokens).trace, ∀ t ∈ e.2, t ∉ e.1) ∧
    List.Chain' (fun e e' : List String × List String => e.2 ⊆ e'.2)
      (SendMulticastNotification g cancel tokens).trace ∧
    (∀ e ∈ (SendMulticastNotification g cancel tokens).trace,
      e.2 ⊆ (SendMulticastNotification g cancel tokens).finalFailed) := by
  by_cases h : tokens = []
  · subst h
    rw [SendMulticastNotification_nil]
    exact ⟨fun e he => absurd he (List.not_mem_nil e), List.chain'_nil,
      fun e he => absurd he (List.not_mem_nil e)⟩
  · rw [SendMulticastNotification_ne_nil g cancel h, sendWithRetry_def]
    obtain ⟨ha, hb, hc, _⟩ := sendLoop_finality g cancel maxRetries 1
      (cappedTokens tokens) newRetryState 0 (cappedTokens_nodup tokens)
      (fun t _ => newRetryState_no_failed t)
    exact ⟨ha, hb, hc⟩

/-- C2.  Conservation: for every input and gateway behaviour honouring the
SDK alignment contract, the returned success count plus failure count is at
most the length of the deduplicated, ceiling-capped working list; and the
empty input returns `(0, 0, nil)` with an empty call trace (no gateway
call). -/
theorem claim_C2_conservation (g : Gateway) (cancel : Nat → Bool)
    (tokens : List String) (hwf : WFGateway g) :
    (SendMulticastNotification g cancel tokens).success +
      (SendMulticastNotification g cancel tokens).failure ≤
      (cappedTokens tokens).length ∧
    SendMulticastNotification g cancel [] =
      { success := 0, failure := 0, err := none, finalFailed := [],
        trace := [], waits := [], passes := [], cancelInfo := none } := by
  refine ⟨?_, SendMulticastNotification_nil g cancel⟩
  by_cases h : tokens = []
  · subst h
    rw [SendMulticastNotification_nil]
    simp
  · rw [SendMulticastNotification_ne_nil g cancel h, sendWithRetry_def]
    have := sendLoop_count g cancel hwf maxRetries 1 (cappedTokens tokens) newRetryState 0
    simpa [newRetryState] using this

/-- C2 witness: the conservation bound instantiated at a concrete gateway
(all sends succeed) and token list. -/
theorem claim_C2_witness :
    WFGateway allSuccessGateway ∧
    ((SendMulticastNotification allSuccessGateway noCancel ["a", "b", "a"]).success +
        (SendMulticastNotification allSuccessGateway noCancel ["a", "b", "a"]).failure ≤
        (cappedTokens ["a", "b", "a"]).length ∧
      SendMulticastNotification allSuccessGateway noCancel [] =
        { success := 0, failure := 0, err := none, finalFailed := [],
          trace := [], waits := [], passes := [], cancelInfo := none }) := by
  have hwf : WFGateway allSuccessGateway := by
    intro k b results hres
    have h2 : GatewayResp.ok (b.map fun _ => ({ success := true, errMsg := none } : TokenResult)) =
        GatewayResp.ok results := hres
    cases h2
    exact List.length_map b _
  exact ⟨hwf, claim_C2_conservation allSuccessGateway noCancel ["a", "b", "a"] hwf⟩

/-- C3.  Deduplication: `uniqueTokens` removes empty strings and duplicates
keeping the first occurrence of each token (output without duplicates and
empties, membership characterised, pairwise increasing first-occurrence
indices); every batch the engine ever issues is duplicate-free; and every
token in any issued batch comes from the deduplicated input list. -/
theorem claim_C3_dedup (g : Gateway) (cancel : Nat → Bool) (tokens l : List String) :
    (uniqueTokens l).Nodup ∧
    "" ∉ uniqueTokens l ∧
    (∀ t, t ∈ uniqueTokens l ↔ t ∈ l ∧ t ≠ "") ∧
    List.Pairwise (fun a b => l.indexOf a < l.indexOf b) (uniqueTokens l) ∧
    (∀ e ∈ (SendMulticastNotification g cancel tokens).trace, e.1.Nodup) ∧
    (∀ e ∈ (SendMulticastNotification g cancel tokens).trace,
      ∀ t ∈ e.1, t ∈ uniqueTokens tokens) := by
  refine ⟨nodup_uniqueTokens l, empty_not_mem_uniqueTokens l,
    fun t => mem_uniqueTokens l, uniqueTokens_pairwise_indexOf l, ?_, ?_⟩
  · by_cases h : tokens = []
    · subst h
      rw [SendMulticastNotification_nil]
      exact fun e he => absurd he (List.not_mem_nil e)
    · rw [SendMulticastNotification_ne_nil g cancel h, sendWithRetry_def]
      exact sendLoop_trace_nodup g cancel maxRetries 1 (cappedTokens tokens)
        newRetryState 0 (cappedTokens_nodup tokens)
  · by_cases h : tokens = []
    · subst h
      rw [SendMulticastNotification_nil]
      exact fun e he => absurd he (List.not_mem_nil e)
    · rw [SendMulticastNotification_ne_nil g cancel h, sendWithRetry_def]
      intro e he t ht
      exact cappedTokens_subset tokens t
        (sendLoop_trace_subset g cancel maxRetries 1 (cappedTokens tokens)
          newRetryState 0 e he t ht)

end FCM

/-! ## Lemmas: the distinct-token families used by the witnesses -/

namespace FCM

theorem aToken_length (n : Nat) : (aToken n).length = n + 1 := by
  have h : (aToken n).length = (List.replicate (n + 1) 'a').length := rfl
  rw [h, List.length_replicate]

theorem aToken_injective : Function.Injective aToken := by
  intro a b h
  have h2 := congrArg String.length h
  rw [aToken_length, aToken_length] at h2
  omega

theorem manyTokens_nodup (n : Nat) : (manyTokens n).Nodup :=
  List.Nodup.map aToken_injective (List.nodup_range n)

theorem empty_not_mem_manyTokens (n : Nat) : "" ∉ manyTokens n := by
  intro h
  rw [manyTokens] at h
  obtain ⟨i, _, hi⟩ := List.mem_map.mp h
  have h2 := congrArg String.length hi
  rw [aToken_length] at h2
  exact Nat.succ_ne_zero i h2

theorem length_manyTokens (n : Nat) : (manyTokens n).length = n := by
  rw [manyTokens, List.length_map, List.length_range]

theorem uniqueTokens_manyTokens (n : Nat) : uniqueTokens (manyTokens n) = manyTokens n :=
  uniqueTokens_eq_self (manyTokens_nodup n) (empty_not_mem_manyTokens n)

/-- C4.  Absolute ceiling: when the deduplicated list exceeds 50 000 tokens,
the call is exactly the retry run on the first 50 000 deduplicated tokens
(first-occurrence order), every issued batch draws only from those first
50 000, and the dropped excess tokens never appear in any issued batch (so
they contribute to neither count). -/
theorem claim_C4_ceiling (g : Gateway) (cancel : Nat → Bool) (tokens : List String)
    (hbig : FCMAbsoluteLimit < (uniqueTokens tokens).length) :
    SendMulticastNotification g cancel tokens =
      sendWithRetry g cancel ((uniqueTokens tokens).take FCMAbsoluteLimit) ∧
    (∀ e ∈ (SendMulticastNotification g cancel tokens).trace,
      ∀ t ∈ e.1, t ∈ (uniqueTokens tokens).take FCMAbsoluteLimit) ∧
    (∀ t ∈ (uniqueTokens tokens).drop FCMAbsoluteLimit,
      ∀ e ∈ (SendMulticastNotification g cancel tokens).trace, t ∉ e.1) := by
  have htok : tokens ≠ [] := by
    intro hc
    subst hc
    rw [show uniqueTokens [] = [] from rfl] at hbig
    exact absurd hbig (by simp)
  have heq : SendMulticastNotification g cancel tokens =
      sendWithRetry g cancel ((uniqueTokens tokens).take FCMAbsoluteLimit) := by
    rw [SendMulticastNotification_ne_nil g cancel htok, cappedTokens_of_gt hbig]
  refine ⟨heq, ?_, ?_⟩
  · rw [heq, sendWithRetry_def]
    exact sendLoop_trace_subset g cancel maxRetries 1 _ newRetryState 0
  · intro t ht e he htb
    rw [heq, sendWithRetry_def] at he
    have h1 : t ∈ (uniqueTokens tokens).take FCMAbsoluteLimit :=
      sendLoop_trace_subset g cancel maxRetries 1 _ newRetryState 0 e he t htb
    have h2 : ((uniqueTokens tokens).take FCMAbsoluteLimit ++
        (uniqueTokens tokens).drop FCMAbsoluteLimit).Nodup := by
      rw [List.take_append_drop]
      exact nodup_uniqueTokens tokens
    exact (List.nodup_append.mp h2).2.2 h1 ht

/-- C4 witness: 50 001 pairwise-distinct non-empty tokens exceed the
ceiling; the theorem applies at that input. -/
theorem claim_C4_witness :
    FCMAbsoluteLimit < (uniqueTokens (manyTokens 50001)).length ∧
    (SendMulticastNotification allSuccessGateway noCancel (manyTokens 50001) =
        sendWithRetry allSuccessGateway noCancel
          ((uniqueTokens (manyTokens 50001)).take FCMAbsoluteLimit) ∧
      (∀ e ∈ (SendMulticastNotification allSuccessGateway noCancel
          (manyTokens 50001)).trace,
        ∀ t ∈ e.1, t ∈ (uniqueTokens (manyTokens 50001)).take FCMAbsoluteLimit) ∧
      (∀ t ∈ (uniqueTokens (manyTokens 50001)).drop FCMAbsoluteLimit,
        ∀ e ∈ (SendMulticastNotification allSuccessGateway noCancel
            (manyTokens 50001)).trace, t ∉ e.1)) := by
  have hbig : FCMAbsoluteLimit < (uniqueTokens (manyTokens 50001)).length := by
    rw [uniqueTokens_manyTokens, length_manyTokens]
    simp [FCMAbsoluteLimit]
  exact ⟨hbig, claim_C4_ceiling allSuccessGateway noCancel (manyTokens 50001) hbig⟩

end FCM

/-! ## Lemmas: the all-success gateway -/

namespace FCM

theorem allSuccessGateway_ok (k : Nat) (b : List String) :
    allSuccessGateway k b =
      GatewayResp.ok (b.map fun _ => { success := true, errMsg := none }) := rfl

theorem processTokenResponses_allSuccess (b : List String) :
    ∀ rs, processTokenResponses b
      (b.map fun _ => ({ success := true, errMsg := none } : TokenResult)) rs = ([], rs) := by
  induction b with
  | nil => intro rs; rfl
  | cons t bs ih =>
    intro rs
    rw [List.map_cons, processTokenResponses, if_pos rfl]
    exact ih rs

theorem countSuccesses_allSuccess (b : List String) :
    countSuccesses (b.map fun _ => ({ success := true, errMsg := none } : TokenResult)) =
      b.length := by
  rw [countSuccesses, List.countP_map]
  simp [Function.comp]

theorem sendBatch_allSuccess (k : Nat) (b : List String) (rs : RetryState) :
    sendBatch allSuccessGateway k b rs =
      ({ successCount := b.length, retryableTokens := [] }, rs) := by
  rw [sendBatch_ok rs (allSuccessGateway_ok k b), processTokenResponses_allSuccess,
    countSuccesses_allSuccess]

theorem sendBatchesList_allSuccess (bs : List (List String)) :
    ∀ k rs, sendBatchesList allSuccessGateway k bs rs =
      ⟨{ successCount := (bs.map List.length).sum, retryableTokens := [] }, rs,
        k + bs.length, bs.map fun b => (b, rs.finalFailedTokens)⟩ := by
  induction bs with
  | nil => intro k rs; rw [sendBatchesList_nil]; simp
  | cons b rest ih =>
    intro k rs
    rw [sendBatchesList_cons, sendBatch_allSuccess, ih]
    simp only [List.sum_cons, List.map_cons, List.length_cons, List.nil_append]
    rw [show k + 1 + rest.length = k + (rest.length + 1) from by omega]

theorem sendBatches_allSuccess (k : Nat) (tokens : List String) (rs : RetryState) :
    sendBatches allSuccessGateway k tokens rs =
      ⟨{ successCount := tokens.length, retryableTokens := [] }, rs,
        k + (chunksOf tokens).length,
        (chunksOf tokens).map fun b => (b, rs.finalFailedTokens)⟩ := by
  rw [sendBatches_def, sendBatchesList_allSuccess]
  have h : ((chunksOf tokens).map List.length).sum = tokens.length := by
    rw [← List.length_flatten, chunksOf_flatten]
  rw [h]

theorem sendLoop_allSuccess (cancel : Nat → Bool) (fuel attempt k : Nat)
    {tokens : List String} (htok : tokens ≠ []) :
    sendLoop allSuccessGateway cancel (fuel + 1) attempt tokens newRetryState k =
      { success := tokens.length, failure := 0, err := none, finalFailed := [],
        trace := (chunksOf tokens).map fun b => (b, []), waits := [],
        passes := [tokens.length], cancelInfo := none } := by
  have hretr : (sendBatches allSuccessGateway k tokens newRetryState).result.retryableTokens
      = [] := by
    rw [sendBatches_allSuccess]
  rw [sendLoop_succ_done allSuccessGateway cancel fuel attempt newRetryState k htok hretr,
    sendBatches_allSuccess]
  simp [newRetryState, RetryState.addSuccessCount, RetryState.failedCount]

theorem sendWithRetry_allSuccess (cancel : Nat → Bool) {tokens : List String}
    (htok : tokens ≠ []) :
    sendWithRetry allSuccessGateway cancel tokens =
      { success := tokens.length, failure := 0, err := none, finalFailed := [],
        trace := (chunksOf tokens).map fun b => (b, []), waits := [],
        passes := [tokens.length], cancelInfo := none } := by
  rw [sendWithRetry_def]
  show sendLoop allSuccessGateway cancel (2 + 1) 1 tokens newRetryState 0 = _
  rw [sendLoop_allSuccess cancel 2 1 0 htok]

theorem chunksOf_map_length_600 {w : List String} (hlen : w.length = 600) :
    (chunksOf w).map List.length = [500, 100] := by
  have hw : w ≠ [] := by
    intro hc
    rw [hc] at hlen
    cases hlen
  rw [chunksOf_cons hw]
  have hdrop : (w.drop maxTokensPerBatch).length = 100 := by
    rw [List.length_drop]
    unfold maxTokensPerBatch
    omega
  have hdne : w.drop maxTokensPerBatch ≠ [] := by
    intro hc
    rw [hc] at hdrop
    cases hdrop
  rw [chunksOf_cons hdne]
  have hdd : (w.drop maxTokensPerBatch).drop maxTokensPerBatch = [] := by
    refine List.length_eq_zero.mp ?_
    rw [List.length_drop, hdrop]
    unfold maxTokensPerBatch
    omega
  rw [hdd, show chunksOf [] = [] from rfl, List.map_cons, List.map_cons, List.map_nil]
  have h1 : (w.take maxTokensPerBatch).length = 500 := by
    rw [List.length_take, hlen]
    unfold maxTokensPerBatch
    rfl
  have h2 : ((w.drop maxTokensPerBatch).take maxTokensPerBatch).length = 100 := by
    rw [List.length_take, hdrop]
    unfold maxTokensPerBatch
    rfl
  rw [h1, h2]

/-- C5.  Batch planning: for every token list the batch decomposition is a
sequence of contiguous slices of at most 500 tokens each, non-empty,
covering the list exactly once in order, and the issued gateway calls are
exactly those slices; in particular 600 unique non-empty tokens with an
all-success gateway yield exactly two batches of sizes 500 and 100 and the
result `(600, 0, nil)`. -/
theorem claim_C5_batching (g : Gateway) (k : Nat) (rs : RetryState)
    (tokens : List String) (cancel : Nat → Bool) (w : List String)
    (hlen : w.length = 600) (hnd : w.Nodup) (hne : "" ∉ w) :
    (chunksOf tokens).flatten = tokens ∧
    (∀ b ∈ chunksOf tokens, b.length ≤ maxTokensPerBatch ∧ b ≠ []) ∧
    (sendBatches g k tokens rs).calls.map Prod.fst = chunksOf tokens ∧
    (SendMulticastNotification allSuccessGateway cancel w).success = 600 ∧
    (SendMulticastNotification allSuccessGateway cancel w).failure = 0 ∧
    (SendMulticastNotification allSuccessGateway cancel w).err = none ∧
    (SendMulticastNotification allSuccessGateway cancel w).trace.map
      (fun e => e.1.length) = [500, 100] := by
  have hw : w ≠ [] := by
    intro hc
    rw [hc] at hlen
    cases hlen
  have hcap : cappedTokens w = w := by
    have hu : uniqueTokens w = w := uniqueTokens_eq_self hnd hne
    rw [cappedTokens_of_le (by rw [hu, hlen]; simp [FCMAbsoluteLimit]), hu]
  have hrun : SendMulticastNotification allSuccessGateway cancel w =
      { success := w.length, failure := 0, err := none, finalFailed := [],
        trace := (chunksOf w).map fun b => (b, []), waits := [],
        passes := [w.length], cancelInfo := none } := by
    rw [SendMulticastNotification_ne_nil allSuccessGateway cancel hw, hcap,
      sendWithRetry_allSuccess cancel hw]
  refine ⟨chunksOf_flatten tokens, chunksOf_mem tokens,
    sendBatchesList_calls_fst g (chunksOf tokens) k rs, ?_, ?_, ?_, ?_⟩
  · rw [hrun, hlen]
  · rw [hrun]
  · rw [hrun]
  · rw [hrun]
    show ((chunksOf w).map fun b => (b, ([] : List String))).map (fun e => e.1.length)
      = [500, 100]
    rw [List.map_map]
    exact chunksOf_map_length_600 hlen

/-- C5 witness: the planning properties and the 600-token all-success
scenario at concrete inputs. -/
theorem claim_C5_witness :
    (manyTokens 600).length = 600 ∧ (manyTokens 600).Nodup ∧ "" ∉ manyTokens 600 ∧
    ((chunksOf ["a", "b"]).flatten = ["a", "b"] ∧
      (∀ b ∈ chunksOf ["a", "b"], b.length ≤ maxTokensPerBatch ∧ b ≠ []) ∧
      (sendBatches allSuccessGateway 0 ["a", "b"] newRetryState).calls.map Prod.fst =
        chunksOf ["a", "b"] ∧
      (SendMulticastNotification allSuccessGateway noCancel (manyTokens 600)).success = 600 ∧
      (SendMulticastNotification allSuccessGateway noCancel (manyTokens 600)).failure = 0 ∧
      (SendMulticastNotification allSuccessGateway noCancel (manyTokens 600)).err = none ∧
      (SendMulticastNotification allSuccessGateway noCancel (manyTokens 600)).trace.map
        (fun e => e.1.length) = [500, 100]) :=
  ⟨length_manyTokens 600, manyTokens_nodup 600, empty_not_mem_manyTokens 600,
    claim_C5_batching allSuccessGateway 0 newRetryState ["a", "b"] noCancel
      (manyTokens 600) (length_manyTokens 600) (manyTokens_nodup 600)
      (empty_not_mem_manyTokens 600)⟩

end FCM

/-! ## Lemmas: backoff -/

namespace FCM

theorem backoffDelay_min (a : Nat) :
    backoffDelay a = min (initialRetryDelay * 2 ^ (a - 1)) maxRetryDelay := by
  simp only [backoffDelay]
  by_cases h : initialRetryDelay * 2 ^ (a - 1) > maxRetryDelay
  · rw [if_pos h]
    exact (Nat.min_eq_right (le_of_lt h)).symm
  · rw [if_neg h]
    exact (Nat.min_eq_left (by omega)).symm

theorem backoffDelay_le_max (a : Nat) : backoffDelay a ≤ maxRetryDelay := by
  rw [backoffDelay_min]
  exact Nat.min_le_right _ _

theorem backoffDelay_mono (a : Nat) : backoffDelay a ≤ backoffDelay (a + 1) := by
  rw [backoffDelay_min, backoffDelay_min]
  refine min_le_min ?_ (le_refl _)
  refine Nat.mul_le_mul_left _ (Nat.pow_le_pow_right (by omega) (by omega))

theorem backoff_chain (m : Nat) : ∀ s, List.Chain' (fun a b => a ≤ b)
    ((List.range' s m).map backoffDelay) := by
  induction m with
  | zero => intro s; exact List.chain'_nil
  | succ m ih =>
    intro s
    rw [List.range'_succ s m 1, List.map_cons]
    refine List.chain'_cons'.mpr ⟨?_, ih (s + 1)⟩
    intro y hy
    cases m with
    | zero =>
      exact absurd hy (by simp)
    | succ m' =>
      rw [List.range'_succ (s + 1) m' 1, List.map_cons] at hy
      cases hy
      exact backoffDelay_mono s

/-- C6.  Backoff policy: the delay for attempt k equals
`initialRetryDelay * 2^(k-1)` capped at `maxRetryDelay`; consecutive delays
are non-decreasing and never exceed the cap; the completed waits of any run
are exactly the delays of consecutive attempts starting at 1, with at most
`maxRetries - 1` of them (none after the final attempt); and a pass with no
retryable tokens incurs no wait. -/
theorem claim_C6_backoff (g : Gateway) (cancel : Nat → Bool) (tokens : List String)
    (fuel attempt k : Nat) (tokens' : List String) (rs : RetryState) :
    (∀ a, backoffDelay a = min (initialRetryDelay * 2 ^ (a - 1)) maxRetryDelay) ∧
    (∀ a, backoffDelay a ≤ backoffDelay (a + 1)) ∧
    (∀ a, backoffDelay a ≤ maxRetryDelay) ∧
    (∃ m, m ≤ maxRetries - 1 ∧
      (SendMulticastNotification g cancel tokens).waits =
        (List.range' 1 m).map backoffDelay) ∧
    List.Chain' (fun a b => a ≤ b) (SendMulticastNotification g cancel tokens).waits ∧
    (∀ d ∈ (SendMulticastNotification g cancel tokens).waits, d ≤ maxRetryDelay) ∧
    ((sendBatches g k tokens' rs).result.retryableTokens = [] →
      (sendLoop g cancel (fuel + 1) attempt tokens' rs k).waits = []) := by
  have hex : ∃ m, m ≤ maxRetries - 1 ∧
      (SendMulticastNotification g cancel tokens).waits =
        (List.range' 1 m).map backoffDelay := by
    by_cases h : tokens = []
    · subst h
      rw [SendMulticastNotification_nil]
      exact ⟨0, by simp, rfl⟩
    · rw [SendMulticastNotification_ne_nil g cancel h, sendWithRetry_def]
      obtain ⟨m, hm, heq⟩ :=
        sendLoop_waits g cancel maxRetries 1 (cappedTokens tokens) newRetryState 0
      refine ⟨m, ?_, heq⟩
      rcases hm with rfl | hm
      · simp
      · unfold maxRetries at hm ⊢
        omega
  refine ⟨backoffDelay_min, backoffDelay_mono, backoffDelay_le_max, hex, ?_, ?_, ?_⟩
  · obtain ⟨m, _, heq⟩ := hex
    rw [heq]
    exact backoff_chain m 1
  · obtain ⟨m, _, heq⟩ := hex
    rw [heq]
    intro d hd
    obtain ⟨a, _, ha⟩ := List.mem_map.mp hd
    rw [← ha]
    exact backoffDelay_le_max a
  · intro hretr
    by_cases h : tokens' = []
    · subst h
      rw [sendLoop_succ_empty, finishSend_nil]
    · rw [sendLoop_succ_done g cancel fuel attempt rs k h hretr]

/-- C6 witness: a pass whose retryable set is empty (all sends succeed)
incurs no wait. -/
theorem claim_C6_witness :
    (sendBatches allSuccessGateway 0 ["a"] newRetryState).result.retryableTokens = [] ∧
    (sendLoop allSuccessGateway noCancel (0 + 1) 1 ["a"] newRetryState 0).waits = [] := by
  have hretr : (sendBatches allSuccessGateway 0 ["a"] newRetryState).result.retryableTokens
      = [] := rfl
  exact ⟨hretr, (claim_C6_backoff allSuccessGateway noCancel [] 0 1 0 ["a"]
    newRetryState).2.2.2.2.2.2 hretr⟩

end FCM

/-! ## Claim theorems: error channel, classification, cancellation -/

namespace FCM

/-- C7.  Error channel: the only error the call can return is the
cancellation error; for every gateway behaviour, if the cancellation signal
never fires the returned error is nil (delivery failures are absorbed into
the failure count); a returned error implies the signal fired at some
attempt that still had a backoff wait (1 ≤ k < maxRetries); and the
returned success count is exactly the sum of the per-pass successes, so it
is preserved alongside a cancellation error. -/
theorem claim_C7_error_channel (g : Gateway) (cancel : Nat → Bool)
    (tokens : List String) :
    ((SendMulticastNotification g cancel tokens).err = none ∨
      (SendMulticastNotification g cancel tokens).err = some FCMError.contextCanceled) ∧
    ((∀ j, cancel j = false) → (SendMulticastNotification g cancel tokens).err = none) ∧
    (∀ e, (SendMulticastNotification g cancel tokens).err = some e →
      ∃ j, 1 ≤ j ∧ j < maxRetries ∧ cancel j = true) ∧
    (SendMulticastNotification g cancel tokens).success =
      (SendMulticastNotification g cancel tokens).passes.sum := by
  by_cases h : tokens = []
  · subst h
    rw [SendMulticastNotification_nil]
    refine ⟨Or.inl rfl, fun _ => rfl, fun e he => ?_, rfl⟩
    simp at he
  · rw [SendMulticastNotification_ne_nil g cancel h, sendWithRetry_def]
    refine ⟨sendLoop_err_cases g cancel maxRetries 1 _ newRetryState 0,
      fun hnc => sendLoop_err_none g cancel hnc maxRetries 1 _ newRetryState 0,
      fun e he => sendLoop_err_some g cancel maxRetries 1 _ newRetryState 0 e he, ?_⟩
    have h2 := sendLoop_success_eq g cancel maxRetries 1 (cappedTokens tokens)
      newRetryState 0
    simpa [newRetryState] using h2

/-- C7 witness: with a never-firing cancellation signal the returned error
is nil. -/
theorem claim_C7_witness :
    (∀ j, noCancel j = false) ∧
    (SendMulticastNotification allSuccessGateway noCancel ["a"]).err = none :=
  ⟨fun _ => rfl,
    (claim_C7_error_channel allSuccessGateway noCancel ["a"]).2.1 (fun _ => rfl)⟩

/-- C8.  Per-token error classification: a textual message matching any
terminal-table entry is classified non-retryable regardless of any
retryable-table match; otherwise a retryable-table match yields retryable;
a message matching neither table is non-retryable; and a nil error is
non-retryable. -/
theorem claim_C8_per_token_classification (msg : String) :
    (matchesAny msg tokenNonRetryableErrors →
      isRetryablePerTokenError (some msg) = false) ∧
    (¬ matchesAny msg tokenNonRetryableErrors →
      matchesAny msg tokenRetryableErrors →
      isRetryablePerTokenError (some msg) = true) ∧
    (¬ matchesAny msg tokenNonRetryableErrors →
      ¬ matchesAny msg tokenRetryableErrors →
      isRetryablePerTokenError (some msg) = false) ∧
    isRetryablePerTokenError none = false := by
  refine ⟨?_, ?_, ?_, rfl⟩
  · intro hA
    have hb := (any_beq_or_contains_iff msg tokenNonRetryableErrors).mpr hA
    simp only [isRetryablePerTokenError]
    rw [if_pos hb]
  · intro hA hB
    have hb1 : ¬ (tokenNonRetryableErrors.any
        fun pat => msg == pat || containsInsensitive msg pat) = true :=
      fun hc => hA ((any_beq_or_contains_iff msg tokenNonRetryableErrors).mp hc)
    have hb2 := (any_beq_or_contains_iff msg tokenRetryableErrors).mpr hB
    simp only [isRetryablePerTokenError]
    rw [if_neg hb1, if_pos hb2]
  · intro hA hB
    have hb1 : ¬ (tokenNonRetryableErrors.any
        fun pat => msg == pat || containsInsensitive msg pat) = true :=
      fun hc => hA ((any_beq_or_contains_iff msg tokenNonRetryableErrors).mp hc)
    have hb2 : ¬ (tokenRetryableErrors.any
        fun pat => msg == pat || containsInsensitive msg pat) = true :=
      fun hc => hB ((any_beq_or_contains_iff msg tokenRetryableErrors).mp hc)
    simp only [isRetryablePerTokenError]
    rw [if_neg hb1, if_neg hb2]

/-- C8 witness: a message matching both tables (terminal `invalid-argument`
and retryable `unavailable`) is classified terminal — the terminal table
wins. -/
theorem claim_C8_witness :
    matchesAny "invalid-argument UNAVAILABLE" tokenNonRetryableErrors ∧
    matchesAny "invalid-argument UNAVAILABLE" tokenRetryableErrors ∧
    isRetryablePerTokenError (some "invalid-argument UNAVAILABLE") = false :=
  ⟨by decide, by decide,
    (claim_C8_per_token_classification "invalid-argument UNAVAILABLE").1 (by decide)⟩

/-- C10.  Cancellation accounting: whenever the call returns an error (the
signal fired during a backoff wait), the recorded cancellation snapshot
(fs, p) — the finalized-failed set and the pending retry set — satisfies:
the returned failure count is `|fs| + |p|` (pending tokens are reported as
failures although never finalized: p is non-empty and disjoint from fs),
and the returned success count is exactly the sum of the successes of the
completed passes. -/
theorem claim_C10_cancel_accounting (g : Gateway) (cancel : Nat → Bool)
    (tokens : List String) (e : FCMError)
    (h : (SendMulticastNotification g cancel tokens).err = some e) :
    ∃ fs p, (SendMulticastNotification g cancel tokens).cancelInfo = some (fs, p) ∧
      (SendMulticastNotification g cancel tokens).failure = fs.length + p.length ∧
      (SendMulticastNotification g cancel tokens).finalFailed = fs ∧
      p ≠ [] ∧ (∀ t ∈ p, t ∉ fs) ∧
      (SendMulticastNotification g cancel tokens).success =
        (SendMulticastNotification g cancel tokens).passes.sum := by
  by_cases htok : tokens = []
  · subst htok
    rw [SendMulticastNotification_nil] at h
    cases h
  · rw [SendMulticastNotification_ne_nil g cancel htok, sendWithRetry_def] at h ⊢
    obtain ⟨fs, p, h1, h2, h3, h4, h5⟩ := sendLoop_cancelInfo g cancel maxRetries 1
      (cappedTokens tokens) newRetryState 0 (cappedTokens_nodup tokens)
      (cappedTokens_no_empty tokens) (fun t _ => newRetryState_no_failed t) e h
    refine ⟨fs, p, h1, h2, h3, h4, h5, ?_⟩
    have h6 := sendLoop_success_eq g cancel maxRetries 1 (cappedTokens tokens)
      newRetryState 0
    simpa [newRetryState] using h6

/-- C10 witness: a batch-failing gateway with a signal firing during the
first backoff wait produces a cancelled run; the accounting theorem applies
to it. -/
theorem claim_C10_witness :
    (SendMulticastNotification always503Gateway alwaysCancel ["a"]).err =
      some FCMError.contextCanceled ∧
    (∃ fs p,
      (SendMulticastNotification always503Gateway alwaysCancel ["a"]).cancelInfo =
        some (fs, p) ∧
      (SendMulticastNotification always503Gateway alwaysCancel ["a"]).failure =
        fs.length + p.length ∧
      (SendMulticastNotification always503Gateway alwaysCancel ["a"]).finalFailed = fs ∧
      p ≠ [] ∧ (∀ t ∈ p, t ∉ fs) ∧
      (SendMulticastNotification always503Gateway alwaysCancel ["a"]).success =
        (SendMulticastNotification always503Gateway alwaysCancel ["a"]).passes.sum) :=
  ⟨by decide, claim_C10_cancel_accounting always503Gateway alwaysCancel ["a"]
    FCMError.contextCanceled (by decide)⟩

end FCM

/-! ## Lemmas: a gateway failing every batch with one retryable error -/

namespace FCM

theorem filterRetryableTokens_newRetryState (w : List String) :
    filterRetryableTokens w newRetryState = w := by
  rw [filterRetryableTokens]
  refine List.filter_eq_self.mpr ?_
  intro a _
  rfl

theorem chunksOf_small {l : List String} (h1 : l ≠ [])
    (h2 : l.length ≤ maxTokensPerBatch) : chunksOf l = [l] := by
  rw [chunksOf_cons h1, List.take_of_length_le h2, List.drop_eq_nil_of_le h2,
    show chunksOf [] = [] from rfl]

theorem sendBatches_batchError_retryable {msg : String}
    (h503 : isRetryableBatchError (some msg) = true) (k : Nat) {w : List String}
    (h1 : w ≠ []) (h2 : w.length ≤ maxTokensPerBatch) :
    sendBatches (fun _ _ => GatewayResp.batchError msg) k w newRetryState =
      ⟨{ successCount := 0, retryableTokens := w }, newRetryState, k + 1, [(w, [])]⟩ := by
  rw [sendBatches_def, chunksOf_small h1 h2, sendBatchesList_cons,
    sendBatch_batchError newRetryState rfl, handleBatchError_retryable w newRetryState h503,
    filterRetryableTokens_newRetryState, sendBatchesList_nil]
  simp [newRetryState]

theorem sendLoop_batchError_all {msg : String}
    (h503 : isRetryableBatchError (some msg) = true) {w : List String}
    (h1 : w ≠ []) (h2 : w.length ≤ maxTokensPerBatch) (hnd : w.Nodup) (hne : "" ∉ w) :
    ∀ fuel attempt k,
      (sendLoop (fun _ _ => GatewayResp.batchError msg) noCancel fuel attempt w
          newRetryState k).success = 0 ∧
      (sendLoop (fun _ _ => GatewayResp.batchError msg) noCancel fuel attempt w
          newRetryState k).failure = w.length ∧
      (sendLoop (fun _ _ => GatewayResp.batchError msg) noCancel fuel attempt w
          newRetryState k).err = none := by
  have hdisj : ∀ t ∈ w, t ∉ newRetryState.finalFailedTokens :=
    fun t _ => newRetryState_no_failed t
  intro fuel
  induction fuel with
  | zero =>
    intro attempt k
    rw [sendLoop_zero, finishSend_ne_nil newRetryState h1]
    refine ⟨newRetryState.markRemainingAsFailed_totalSuccess w, ?_, rfl⟩
    rw [RetryState.failedCount_eq,
      RetryState.length_markRemainingAsFailed_of_disjoint hnd hdisj]
    simp [newRetryState]
  | succ fuel ih =>
    intro attempt k
    have hsb := sendBatches_batchError_retryable h503 k h1 h2
    have hretr : (sendBatches (fun _ _ => GatewayResp.batchError msg) k w
        newRetryState).result.retryableTokens ≠ [] := by
      rw [hsb]
      exact h1
    have hrs : ((sendBatches (fun _ _ => GatewayResp.batchError msg) k w
        newRetryState).rs.addSuccessCount
        (sendBatches (fun _ _ => GatewayResp.batchError msg) k w
          newRetryState).result.successCount) = newRetryState := by
      rw [hsb]
      rfl
    have hnext : uniqueTokens (sendBatches (fun _ _ => GatewayResp.batchError msg) k w
        newRetryState).result.retryableTokens = w := by
      rw [hsb]
      exact uniqueTokens_eq_self hnd hne
    by_cases hlt : attempt < maxRetries
    · rw [sendLoop_succ_wait (fun _ _ => GatewayResp.batchError msg) noCancel fuel attempt
        newRetryState k h1 hretr hlt rfl]
      have hrest := ih (attempt + 1)
        (sendBatches (fun _ _ => GatewayResp.batchError msg) k w newRetryState).nextCall
      rw [hnext, hrs]
      exact hrest
    · rw [sendLoop_succ_last (fun _ _ => GatewayResp.batchError msg) noCancel fuel attempt
        newRetryState k h1 hretr hlt]
      have hrest := ih (attempt + 1)
        (sendBatches (fun _ _ => GatewayResp.batchError msg) k w newRetryState).nextCall
      rw [hnext, hrs]
      exact hrest

/-- C9.  Whole-batch error handling: a batch-retryable gateway error counts
zero successes, leaves the failed set unchanged and re-queues exactly the
batch tokens not already finalized; a non-retryable batch error counts zero
successes, queues nothing and adds every batch token to the failed set; and
10 distinct non-empty tokens whose every batch send fails with one fixed
"503"-matching error end, after all retries, with the result `(0, 10, nil)`. -/
theorem claim_C9_batch_error (g : Gateway) (k : Nat) (b : List String)
    (rs : RetryState) (msg : String) (w : List String) (msg2 : String) :
    (g k b = GatewayResp.batchError msg → isRetryableBatchError (some msg) = true →
      (sendBatch g k b rs).1.successCount = 0 ∧
      (∀ t, t ∈ (sendBatch g k b rs).1.retryableTokens ↔
        t ∈ b ∧ t ∉ rs.finalFailedTokens) ∧
      (sendBatch g k b rs).2 = rs) ∧
    (g k b = GatewayResp.batchError msg → ¬ isRetryableBatchError (some msg) = true →
      (sendBatch g k b rs).1.successCount = 0 ∧
      (sendBatch g k b rs).1.retryableTokens = [] ∧
      (∀ t, t ∈ (sendBatch g k b rs).2.finalFailedTokens ↔
        t ∈ rs.finalFailedTokens ∨ t ∈ b)) ∧
    (w.length = 10 → w.Nodup → "" ∉ w → containsInsensitive msg2 "503" = true →
      (SendMulticastNotification (fun _ _ => GatewayResp.batchError msg2) noCancel
        w).success = 0 ∧
      (SendMulticastNotification (fun _ _ => GatewayResp.batchError msg2) noCancel
        w).failure = 10 ∧
      (SendMulticastNotification (fun _ _ => GatewayResp.batchError msg2) noCancel
        w).err = none) := by
  refine ⟨?_, ?_, ?_⟩
  · intro hg hr
    rw [sendBatch_batchError rs hg, handleBatchError_retryable b rs hr]
    exact ⟨rfl, fun t => mem_filterRetryableTokens b rs t, rfl⟩
  · intro hg hr
    rw [sendBatch_batchError rs hg, handleBatchError_terminal b rs hr]
    exact ⟨rfl, rfl, fun t => rs.mem_markRemainingAsFailed b t⟩
  · intro hlen hnd hne h503
    have h1 : w ≠ [] := by
      intro hc
      rw [hc] at hlen
      cases hlen
    have h2 : w.length ≤ maxTokensPerBatch := by
      rw [hlen]
      unfold maxTokensPerBatch
      omega
    have hmsg : isRetryableBatchError (some msg2) = true :=
      (isRetryableBatchError_iff msg2).mpr ⟨"503", by simp [batchRetryablePatterns], h503⟩
    have hcap : cappedTokens w = w := by
      have hu : uniqueTokens w = w := uniqueTokens_eq_self hnd hne
      rw [cappedTokens_of_le (by rw [hu, hlen]; simp [FCMAbsoluteLimit]), hu]
    rw [SendMulticastNotification_ne_nil _ noCancel h1, hcap, sendWithRetry_def]
    obtain ⟨ha, hb, hc⟩ := sendLoop_batchError_all hmsg h1 h2 hnd hne maxRetries 1 0
    exact ⟨ha, by rw [hb, hlen], hc⟩

/-- C9 witness: the three branches instantiated — a concrete retryable
batch error, and the 10-token always-503 scenario. -/
theorem claim_C9_witness :
    ((fun _ _ => GatewayResp.batchError "503" : Gateway) 0 ["x"] =
        GatewayResp.batchError "503" ∧
      isRetryableBatchError (some "503") = true) ∧
    ((manyTokens 10).length = 10 ∧ (manyTokens 10).Nodup ∧ "" ∉ manyTokens 10 ∧
      containsInsensitive "503" "503" = true) ∧
    ((SendMulticastNotification (fun _ _ => GatewayResp.batchError "503") noCancel
        (manyTokens 10)).success = 0 ∧
      (SendMulticastNotification (fun _ _ => GatewayResp.batchError "503") noCancel
        (manyTokens 10)).failure = 10 ∧
      (SendMulticastNotification (fun _ _ => GatewayResp.batchError "503") noCancel
        (manyTokens 10)).err = none) :=
  ⟨⟨rfl, by decide⟩,
    ⟨length_manyTokens 10, manyTokens_nodup 10, empty_not_mem_manyTokens 10, by decide⟩,
    (claim_C9_batch_error (fun _ _ => GatewayResp.batchError "503") 0 ["x"]
      newRetryState "503" (manyTokens 10) "503").2.2
      (length_manyTokens 10) (manyTokens_nodup 10) (empty_not_mem_manyTokens 10)
      (by decide)⟩

end FCM
